import Mathlib

/-!
Verification of the Originless discovery-and-replication pipeline.

This file is a shallow embedding, in Lean 4, of the parts of the Originless
source that the specification's testable properties talk about:

* `src/modules/database.js` — the in-memory reference store (`pinsMap`),
  the in-progress marker map (`inProgressMap`) and their operations;
* `src/unnamed/part_006` — the concurrent pinner job (the scheduler pass
  that uses the in-progress tracking API of `database.js`);
* `src/modules/routes.js` — the remote-upload concurrency counter;
* `src/modules/gateways.js` — the gateway selector;
* `src/nostr.js` — CID extraction from text;
* `src/modules/middleware.js` — the backward-pagination discovery loops.

JavaScript `Map`s keyed by strings are embedded as insertion-ordered
association lists with unique keys; `Date.now()` is an explicit `nowMs : Nat`
parameter (milliseconds), with `Math.floor(Date.now() / 1000)` embedded as an
explicit seconds parameter; `Math.random()`-driven choices take an injected
`rand : Nat → Nat` sequence; network calls (IPFS daemon, relays, gateway
probes) are injected oracles.  Each definition carries a comment pointing at
the source lines it embeds.
-/

namespace Originless

/-! ### Reference store: data model (`src/modules/database.js` lines 18–29)

A pin object as built by `createPinObject`.  The JS field `type` is called
`ptype` here (`type` is a Lean keyword); all timestamp fields are `Nat`
(seconds, except where noted).  Sizes are `Nat` bytes. -/

structure Pin where
  id : Nat
  event_id : String
  cid : String
  size : Nat
  timestamp : Nat
  author : String
  ptype : String
  status : String
  created_at : Nat
  updated_at : Nat
deriving Repr, DecidableEq

/-- `createPinObject` (database.js lines 18–29): the plain record builder. -/
def createPinObject (id : Nat) (eventId cid : String) (size timestamp : Nat)
    (author ptype status : String) (createdAt updatedAt : Nat) : Pin :=
  { id := id, event_id := eventId, cid := cid, size := size,
    timestamp := timestamp, author := author, ptype := ptype, status := status,
    created_at := createdAt, updated_at := updatedAt }

/-- An `inProgressMap` value (database.js line 6 and `markInProgress` lines
284–290): `{ startTime, lastProgress, type }`, with `bytes` added later by
`updateProgress`.  Times are in milliseconds (`Date.now()`). -/
structure ProgInfo where
  startTime : Nat
  lastProgress : Nat
  ptype : String
  bytes : Option Nat
deriving Repr, DecidableEq

/-- The module state of `database.js`: `pinsMap` (CID → pin object,
insertion-ordered, embedded as a list of pins keyed by their `cid` field),
`inProgressMap` (CID → ProgInfo) and the `nextId` counter. -/
structure DB where
  pins : List Pin
  nextId : Nat
  inProgress : List (String × ProgInfo)
deriving Repr, DecidableEq

def DB.empty : DB := { pins := [], nextId := 1, inProgress := [] }

/-- `pinsMap.has(cid)`. -/
def pinsHas (db : DB) (cid : String) : Bool :=
  db.pins.any (fun p => p.cid = cid)

/-- `getPinByCid` (database.js lines 79–86): `pinsMap.get(cid) || null`. -/
def getPinByCid (db : DB) (cid : String) : Option Pin :=
  db.pins.find? (fun p => p.cid = cid)

/-- The status of the pin stored under `cid`, if any. -/
def statusOf (db : DB) (cid : String) : Option String :=
  (getPinByCid db cid).map (fun p => p.status)

/-- `Map.set` semantics on an insertion-ordered association list: replacing
the value of an existing key keeps its position; a new key is appended.
(Keys are unique in every reachable store, so replacing the first occurrence
is exactly `Map.set`.) -/
def listMapSet (m : List (String × ProgInfo)) (k : String) (v : ProgInfo) :
    List (String × ProgInfo) :=
  match m with
  | [] => [(k, v)]
  | e :: rest => if e.1 = k then (k, v) :: rest else e :: listMapSet rest k v

/-! ### Reference store: operations (`src/modules/database.js`) -/

/-- Record argument for `recordPin` (the destructured parameter object,
database.js line 32; `size` defaults to 0 and `status` to `'pinned'` at the
call sites we model, so both are explicit here). -/
structure RecordArgs where
  eventId : String
  cid : String
  size : Nat
  timestamp : Nat
  author : String
  ptype : String
  status : String
deriving Repr, DecidableEq

/-- `recordPin` (database.js lines 32–58).  If the CID exists, mutate the
existing object's `size`, `status` and `updated_at` in place; otherwise insert
a fresh object with `id = nextId++` and `created_at = updated_at = now`.
Returns `true` (the `catch` branch is unreachable for pure map operations).
`now` is `Math.floor(Date.now() / 1000)` in seconds; the source computes it
twice (lines 34 and 47) within one handler invocation, embedded as one value. -/
def recordPin (db : DB) (a : RecordArgs) (now : Nat) : DB × Bool :=
  if pinsHas db a.cid then
    ({ db with
        pins := db.pins.map (fun p =>
          if p.cid = a.cid then
            { p with size := a.size, status := a.status, updated_at := now }
          else p) },
      true)
  else
    ({ db with
        pins := db.pins ++
          [createPinObject db.nextId a.eventId a.cid a.size a.timestamp
            a.author a.ptype a.status now now],
        nextId := db.nextId + 1 },
      true)

/-- `updatePinSize` (database.js lines 61–76): set `size`, `status`,
`updated_at` on an existing pin; returns `false` if the CID is unknown. -/
def updatePinSize (db : DB) (cid : String) (size : Nat) (status : String)
    (now : Nat) : DB × Bool :=
  if pinsHas db cid then
    ({ db with
        pins := db.pins.map (fun p =>
          if p.cid = cid then
            { p with size := size, status := status, updated_at := now }
          else p) },
      true)
  else
    (db, false)

/-- Argument record for `insertCidIfNotExists` / `batchInsertCids` (the
discovered-CID objects produced by the discovery job: `{ eventId, cid,
timestamp, author, type }`). -/
structure CidRec where
  eventId : String
  cid : String
  timestamp : Nat
  author : String
  ptype : String
deriving Repr, DecidableEq

/-- `insertCidIfNotExists` (database.js lines 162–177): insert a fresh
`'pending'` record with `size = 0` iff the CID is absent; first discovery
wins.  Returns `true` iff inserted. -/
def insertCidIfNotExists (db : DB) (r : CidRec) (now : Nat) : DB × Bool :=
  if pinsHas db r.cid then
    (db, false)
  else
    ({ db with
        pins := db.pins ++
          [createPinObject db.nextId r.eventId r.cid 0 r.timestamp r.author
            r.ptype "pending" now now],
        nextId := db.nextId + 1 },
      true)

/-- `batchInsertCids` (database.js lines 180–214): fold of the same
insert-if-absent step; returns the number of inserted records. -/
def batchInsertCids (db : DB) (rs : List CidRec) (now : Nat) : DB × Nat :=
  rs.foldl
    (fun (acc : DB × Nat) r =>
      let (db', inserted) := insertCidIfNotExists acc.1 r now
      (db', if inserted then acc.2 + 1 else acc.2))
    (db, 0)

/-- The selection filter of `getPendingCidsByType` (database.js line 220):
`pin.type === type && pin.status !== 'pinned' && !inProgressMap.has(pin.cid)`.
Note that only status `'pinned'` is excluded. -/
def pendingPool (db : DB) (t : String) : List Pin :=
  db.pins.filter (fun p =>
    p.ptype = t ∧ p.status ≠ "pinned" ∧ ¬ db.inProgress.any (fun e => e.1 = p.cid))

/-- One swap of the Fisher–Yates loop: exchange positions `i` and `j`
(identity when an index is out of bounds, which the loop never produces). -/
def swapAt {α : Type} (l : List α) (i j : Nat) : List α :=
  match l.get? i, l.get? j with
  | some a, some b => (l.set i b).set j a
  | _, _ => l

/-- The Fisher–Yates loop of `getPendingCidsByType` (database.js lines
223–226; the identical loop also appears as `shuffle` in gateways.js lines
62–69), counting `i` down from `length - 1` to `1`; at index `i` the source
draws `j = Math.floor(Math.random() * (i + 1)) ∈ [0, i]`, embedded as
`rand i % (i + 1)`. -/
def fisherYatesGo {α : Type} (rand : Nat → Nat) : Nat → List α → List α
  | 0, l => l
  | i + 1, l => fisherYatesGo rand i (swapAt l (i + 1) (rand (i + 1) % (i + 2)))

/-- The full shuffle (`length - 1` down to `1`). -/
def fisherYates {α : Type} (rand : Nat → Nat) (l : List α) : List α :=
  fisherYatesGo rand (l.length - 1) l

/-- `getPendingCidsByType` (database.js lines 217–233): filter, shuffle
randomly, then `slice(0, limit)`. -/
def getPendingCidsByType (db : DB) (t : String) (limit : Nat)
    (rand : Nat → Nat) : List Pin :=
  (fisherYates rand (pendingPool db t)).take limit

/-- `countByTypeAndStatus` (database.js lines 236–249). -/
def countByTypeAndStatus (db : DB) (t s : String) : Nat :=
  (db.pins.filter (fun p => p.ptype = t ∧ p.status = s)).length

/-- `markInProgress` (database.js lines 284–290): `Map.set` of a fresh
`{ startTime: Date.now(), lastProgress: Date.now(), type }` entry. -/
def markInProgress (db : DB) (cid t : String) (nowMs : Nat) : DB :=
  let info : ProgInfo :=
    { startTime := nowMs, lastProgress := nowMs, ptype := t, bytes := none }
  { db with inProgress := listMapSet db.inProgress cid info }

/-- `updateProgress` (database.js lines 292–298): refresh `lastProgress` and
record `bytes` on an existing entry; no-op if the CID is not tracked. -/
def updateProgress (db : DB) (cid : String) (bytes : Nat) (nowMs : Nat) : DB :=
  { db with inProgress :=
      db.inProgress.map (fun e =>
        if e.1 = cid then (e.1, { e.2 with lastProgress := nowMs, bytes := some bytes })
        else e) }

/-- `clearInProgress` (database.js lines 300–302): `Map.delete`. -/
def clearInProgress (db : DB) (cid : String) : DB :=
  { db with inProgress := db.inProgress.filter (fun e => e.1 ≠ cid) }

/-- `isInProgress` (database.js lines 304–306). -/
def isInProgress (db : DB) (cid : String) : Bool :=
  db.inProgress.any (fun e => e.1 = cid)

/-- The stale threshold of `cleanupStaleInProgress` (database.js line 319):
10 minutes in milliseconds. -/
def staleThresholdMs : Nat := 10 * 60 * 1000

/-- `cleanupStaleInProgress` (database.js lines 316–327): delete every entry
with `now - lastProgress > staleThreshold`.  JS subtraction of a later
timestamp yields a negative number (kept, as `>` fails); `Nat` truncated
subtraction yields `0` (also kept), so behaviour agrees. -/
def cleanupStaleInProgress (db : DB) (nowMs : Nat) : DB :=
  { db with inProgress :=
      db.inProgress.filter (fun e => ¬ nowMs - e.2.lastProgress > staleThresholdMs) }

/-- Count of in-progress entries of one class, as computed by the pinner job
(part_006 lines 111–113: `getInProgressCids().filter(p => p.type === t).length`). -/
def inProgressCountByType (db : DB) (t : String) : Nat :=
  (db.inProgress.filter (fun e => e.2.ptype = t)).length

/-! ### Replication scheduler: one pinner-job pass (`src/unnamed/part_006`)

This is the concurrent pinner variant (the one built on `database.js`'s
in-progress tracking API).  A pass is embedded as a pure function of the
store plus an oracle for the daemon calls; the fire-and-forget `pinCid` /
`addCid` promises become a task list whose completions are applied after the
pass (the no-overlap schedule).  The trace of store states after every
mutating step is returned alongside, so temporal properties can be stated
about adjacent states.  Log lines and the `queue.js` activity timestamp have
no effect on the store and are not modelled. -/

/-- `MAX_CONCURRENT_SELF` (part_006 line 24). -/
def MAX_CONCURRENT_SELF : Nat := 2

/-- `MAX_CONCURRENT_FRIENDS` (part_006 line 25). -/
def MAX_CONCURRENT_FRIENDS : Nat := 3

/-- Oracle for the daemon interactions of a pass: `isPinned`, `getCidSize`
(`none` models a rejected promise), the outcome of a fire-and-forget
`pinCid` (resolve/reject) and of `addCid` (`some size` on resolution,
modelling `result?.size || 0`; `none` on rejection).  Answers are per-CID. -/
structure SchedOracle where
  alreadyPinned : String → Bool
  sizeOf : String → Option Nat
  pinOutcome : String → Bool
  cacheOutcome : String → Option Nat

/-- An in-flight fire-and-forget daemon call: `pinCid` (`ttype = "self"`,
part_006 line 159) or `addCid` (`ttype = "friend"`, line 223). -/
structure Task where
  cid : String
  ttype : String
deriving Repr, DecidableEq

/-- Processing of one self candidate (part_006 lines 128–184): skip if
already in progress; if `isPinned` reports the CID already pinned, commit
`'pinned'` directly (`getCidSize` failure recorded as size 0); otherwise mark
in progress and fire `pinCid`, whose completion is deferred as a `Task`. -/
def processSelfCand (o : SchedOracle) (nowMs : Nat) (db : DB) (c : Pin) :
    DB × Option Task :=
  if isInProgress db c.cid then (db, none)
  else if o.alreadyPinned c.cid then
    ((updatePinSize db c.cid ((o.sizeOf c.cid).getD 0) "pinned" (nowMs / 1000)).1, none)
  else
    (markInProgress db c.cid "self" nowMs, some { cid := c.cid, ttype := "self" })

/-- Processing of one friend candidate (part_006 lines 192–244): as for
self, with terminal status `'cached'` and an `addCid` task. -/
def processFriendCand (o : SchedOracle) (nowMs : Nat) (db : DB) (c : Pin) :
    DB × Option Task :=
  if isInProgress db c.cid then (db, none)
  else if o.alreadyPinned c.cid then
    ((updatePinSize db c.cid ((o.sizeOf c.cid).getD 0) "cached" (nowMs / 1000)).1, none)
  else
    (markInProgress db c.cid "friend" nowMs, some { cid := c.cid, ttype := "friend" })

/-- The candidate loop: fold a per-candidate step over the selected list,
collecting fired tasks and the store state after each candidate. -/
def processCands (step : DB → Pin → DB × Option Task) (db : DB) :
    List Pin → DB × List Task × List DB
  | [] => (db, [], [])
  | c :: cs =>
    let r := step db c
    let rest := processCands step r.1 cs
    (rest.1, (match r.2 with | some t => t :: rest.2.1 | none => rest.2.1),
      r.1 :: rest.2.2)

/-- One full pinner-job pass (part_006 lines 103–268) run without overlap:
stale cleanup, per-class snapshots, per-class selection bounded by the free
slots, and both candidate loops.  The friend slots use the snapshot taken at
pass start (lines 112–113), while the friend selection itself runs on the
store as left by the self loop (line 190).  Returns the final store, the
fired tasks and the trace (post-cleanup state, then one state per candidate). -/
def pinnerPass (o : SchedOracle) (randS randF : Nat → Nat) (nowMs : Nat)
    (db0 : DB) : DB × List Task × List DB :=
  let db1 := cleanupStaleInProgress db0 nowMs
  let inProgressSelf := inProgressCountByType db1 "self"
  let inProgressFriends := inProgressCountByType db1 "friend"
  let selfPending := countByTypeAndStatus db1 "self" "pending"
  let friendsPending := countByTypeAndStatus db1 "friend" "pending"
  let selfSlots := MAX_CONCURRENT_SELF - inProgressSelf
  let selfCands :=
    if selfSlots > 0 ∧ selfPending > 0 then
      getPendingCidsByType db1 "self" selfSlots randS
    else []
  let rS := processCands (processSelfCand o nowMs) db1 selfCands
  let friendSlots := MAX_CONCURRENT_FRIENDS - inProgressFriends
  let friendCands :=
    if friendSlots > 0 ∧ friendsPending > 0 then
      getPendingCidsByType rS.1 "friend" friendSlots randF
    else []
  let rF := processCands (processFriendCand o nowMs) rS.1 friendCands
  (rF.1, rS.2.1 ++ rF.2.1, db1 :: rS.2.2 ++ rF.2.2)

/-- Completion of one in-flight task (part_006 lines 165–179 and 229–239):
on resolution commit the terminal status and size, on rejection commit
`'failed'` with size 0; either way clear the in-progress marker.  The commit
is a single atomic segment of the event loop. -/
def completeTask (o : SchedOracle) (nowSec : Nat) (db : DB) (t : Task) : DB :=
  if t.ttype = "self" then
    if o.pinOutcome t.cid then
      clearInProgress (updatePinSize db t.cid ((o.sizeOf t.cid).getD 0) "pinned" nowSec).1 t.cid
    else
      clearInProgress (updatePinSize db t.cid 0 "failed" nowSec).1 t.cid
  else
    match o.cacheOutcome t.cid with
    | some size => clearInProgress (updatePinSize db t.cid size "cached" nowSec).1 t.cid
    | none => clearInProgress (updatePinSize db t.cid 0 "failed" nowSec).1 t.cid

/-- Completion of a list of in-flight tasks, with the post-completion trace. -/
def completeTasks (o : SchedOracle) (nowSec : Nat) (db : DB) :
    List Task → DB × List DB
  | [] => (db, [])
  | t :: ts =>
    let db' := completeTask o nowSec db t
    let rest := completeTasks o nowSec db' ts
    (rest.1, db' :: rest.2)

/-- The whole-state trace of one pass followed by the completions of all the
tasks it fired (at a later instant `nowMs2`): the initial state, the
post-cleanup state, one state per processed candidate, one state per
completed task. -/
def passWithCompletions (o : SchedOracle) (randS randF : Nat → Nat)
    (nowMs nowMs2 : Nat) (db0 : DB) : List DB :=
  let p := pinnerPass o randS randF nowMs db0
  let c := completeTasks o (nowMs2 / 1000) p.1 p.2.1
  db0 :: p.2.2 ++ c.2

/-- Terminal statuses of the reference state machine. -/
def isTerminalStatus (s : String) : Bool :=
  s = "pinned" ∨ s = "cached" ∨ s = "failed"

/-- The property claimed of the scheduler (spec §8, "State machine"): across
two adjacent observed states, a reference whose status moves from
`'pending'` to a terminal status was marked in progress at some state at or
before the transition. -/
def pendingToInProgressDiscipline (tr : List DB) : Prop :=
  ∀ i cid, i + 1 < tr.length →
    statusOf (tr.getD i DB.empty) cid = some "pending" →
    (∃ s, statusOf (tr.getD (i + 1) DB.empty) cid = some s ∧
      isTerminalStatus s = true) →
    ∃ j, j ≤ i ∧ isInProgress (tr.getD j DB.empty) cid = true

/-- The transition discipline that actually holds between two adjacent
states of a pass: a `pending → terminal` commit happens only with the
in-progress marker set at the pre-state, or through the already-replicated
shortcut (the candidate for which `isPinned` answered `true`). -/
def FlipOk (o : SchedOracle) (pre post : DB) : Prop :=
  ∀ cid, statusOf pre cid = some "pending" →
    (∃ s, statusOf post cid = some s ∧ isTerminalStatus s = true) →
    (isInProgress pre cid = true ∨ o.alreadyPinned cid = true)

/-! ### Replication scheduler: interleaved event-loop semantics

`setInterval(pinnerJob, …)` (app.js line 69) fires regardless of whether the
previous `pinnerJob` invocation has finished, and `pinnerJob` suspends at its
`await isPinned(cid)` / `await getCidSize(cid)` points (part_006 lines 143,
148, 207, 212), so several passes can interleave.  This small-step system
makes every synchronous segment of part_006 one step; steps switch between
coroutines only at genuine `await` boundaries.  A pass coroutine is a
`PassCtl`: the snapshots taken at pass start that are still needed later
(the friend-class snapshot counts of lines 112–117, consumed at line 188)
plus the control point. -/

inductive Phase where
  | selfAwait (c : Pin) (rest : List Pin)
  | selfShortcutAwait (c : Pin) (rest : List Pin)
  | friendAwait (c : Pin) (rest : List Pin)
  | friendShortcutAwait (c : Pin) (rest : List Pin)
  | passDone
deriving Repr, DecidableEq

structure PassCtl where
  inProgFriends0 : Nat
  friendsPending0 : Nat
  phase : Phase
deriving Repr, DecidableEq

/-- The synchronous skip scan of the candidate loops (part_006 lines
131–135 and 195–199): drop candidates that are already in progress; stop at
the first one whose `isPinned` check will be awaited. -/
def syncSkip (db : DB) : List Pin → Option (Pin × List Pin)
  | [] => none
  | c :: cs => if isInProgress db c.cid then syncSkip db cs else some (c, cs)

/-- Entering the friend loop (part_006 lines 187–199): slots from the
pass-start snapshot, selection from the current store. -/
def enterFriendPhase (db : DB) (ctl : PassCtl) (randF : Nat → Nat) : Phase :=
  let friendSlots := MAX_CONCURRENT_FRIENDS - ctl.inProgFriends0
  let cands :=
    if friendSlots > 0 ∧ ctl.friendsPending0 > 0 then
      getPendingCidsByType db "friend" friendSlots randF
    else []
  match syncSkip db cands with
  | some (c, cs) => Phase.friendAwait c cs
  | none => Phase.passDone

/-- Advance the self loop synchronously; when it is exhausted the pass falls
through to the friend loop within the same synchronous segment. -/
def advanceSelf (db : DB) (ctl : PassCtl) (rest : List Pin) (randF : Nat → Nat) :
    Phase :=
  match syncSkip db rest with
  | some (c, cs) => Phase.selfAwait c cs
  | none => enterFriendPhase db ctl randF

/-- Advance the friend loop synchronously. -/
def advanceFriend (db : DB) (rest : List Pin) : Phase :=
  match syncSkip db rest with
  | some (c, cs) => Phase.friendAwait c cs
  | none => Phase.passDone

/-- The whole event-loop state: the store, the active pass coroutines, the
in-flight fire-and-forget tasks and the clock (ms). -/
structure Sys where
  db : DB
  passes : List PassCtl
  tasks : List Task
  nowMs : Nat
deriving Repr, DecidableEq

def initSys : Sys := { db := DB.empty, passes := [], tasks := [], nowMs := 0 }

/-- Time passing between event-loop turns. -/
def tickFun (s : Sys) (d : Nat) : Sys := { s with nowMs := s.nowMs + d }

/-- One discovery-job commit (part_006 lines 56–58): `batchInsertCids` of the
CIDs found on the relays, tagged `'self'` or `'friend'`. -/
def discoveryFun (s : Sys) (recs : List CidRec) : Sys :=
  { s with db := (batchInsertCids s.db recs (s.nowMs / 1000)).1 }

/-- The synchronous prefix of a pass (part_006 lines 105–135): stale
cleanup, snapshots, self selection, and the skip scan up to the first
`await isPinned`. -/
def passStartFun (s : Sys) (randS randF : Nat → Nat) : Sys :=
  let db1 := cleanupStaleInProgress s.db s.nowMs
  let ipS := inProgressCountByType db1 "self"
  let ipF := inProgressCountByType db1 "friend"
  let sp := countByTypeAndStatus db1 "self" "pending"
  let fp := countByTypeAndStatus db1 "friend" "pending"
  let selfSlots := MAX_CONCURRENT_SELF - ipS
  let selfCands :=
    if selfSlots > 0 ∧ sp > 0 then getPendingCidsByType db1 "self" selfSlots randS
    else []
  let ctl0 : PassCtl :=
    { inProgFriends0 := ipF, friendsPending0 := fp, phase := Phase.passDone }
  let ctl := { ctl0 with phase := advanceSelf db1 ctl0 selfCands randF }
  { s with db := db1, passes := s.passes ++ [ctl] }

/-- Resumption of pass `i` after its `await isPinned(cid)` in the self loop
(part_006 lines 143–184): on `true` the pass suspends again at
`await getCidSize`; on `false` it marks the CID in progress, fires `pinCid`
and continues the loop synchronously. -/
def resumeSelfPinnedFun (s : Sys) (i : Nat) (b : Bool) (randF : Nat → Nat) :
    Sys :=
  match s.passes.get? i with
  | some ctl =>
    match ctl.phase with
    | Phase.selfAwait c rest =>
      if b then
        { s with passes :=
            s.passes.set i { ctl with phase := Phase.selfShortcutAwait c rest } }
      else
        let db' := markInProgress s.db c.cid "self" s.nowMs
        let t : Task := { cid := c.cid, ttype := "self" }
        { s with
            db := db'
            passes := s.passes.set i { ctl with phase := advanceSelf db' ctl rest randF }
            tasks := s.tasks ++ [t] }
    | _ => s
  | none => s

/-- Resumption of pass `i` after the shortcut's `await getCidSize` (part_006
lines 146–153): commit `'pinned'` directly (size 0 when the size query
throws) and continue the loop synchronously. -/
def resumeSelfSizeFun (s : Sys) (i : Nat) (size : Option Nat)
    (randF : Nat → Nat) : Sys :=
  match s.passes.get? i with
  | some ctl =>
    match ctl.phase with
    | Phase.selfShortcutAwait c rest =>
      let db' := (updatePinSize s.db c.cid (size.getD 0) "pinned" (s.nowMs / 1000)).1
      { s with
          db := db'
          passes := s.passes.set i { ctl with phase := advanceSelf db' ctl rest randF } }
    | _ => s
  | none => s

/-- Resumption after `await isPinned` in the friend loop (part_006 lines
207–244), mirror image of the self case with an `addCid` task. -/
def resumeFriendPinnedFun (s : Sys) (i : Nat) (b : Bool) : Sys :=
  match s.passes.get? i with
  | some ctl =>
    match ctl.phase with
    | Phase.friendAwait c rest =>
      if b then
        { s with passes :=
            s.passes.set i { ctl with phase := Phase.friendShortcutAwait c rest } }
      else
        let db' := markInProgress s.db c.cid "friend" s.nowMs
        let t : Task := { cid := c.cid, ttype := "friend" }
        { s with
            db := db'
            passes := s.passes.set i { ctl with phase := advanceFriend db' rest }
            tasks := s.tasks ++ [t] }
    | _ => s
  | none => s

/-- Resumption after the friend shortcut's `await getCidSize` (part_006
lines 210–217): commit `'cached'` directly. -/
def resumeFriendSizeFun (s : Sys) (i : Nat) (size : Option Nat) : Sys :=
  match s.passes.get? i with
  | some ctl =>
    match ctl.phase with
    | Phase.friendShortcutAwait c rest =>
      let db' := (updatePinSize s.db c.cid (size.getD 0) "cached" (s.nowMs / 1000)).1
      { s with
          db := db'
          passes := s.passes.set i { ctl with phase := advanceFriend db' rest } }
    | _ => s
  | none => s

/-- Atomic commit of an in-flight task's completion (part_006 lines 165–179
/ 229–239): `some size` models resolution (`getCidSize` failures already
folded into size 0), `none` models rejection. -/
def commitTaskResult (db : DB) (t : Task) (res : Option Nat) (nowSec : Nat) :
    DB :=
  if t.ttype = "self" then
    match res with
    | some size => clearInProgress (updatePinSize db t.cid size "pinned" nowSec).1 t.cid
    | none => clearInProgress (updatePinSize db t.cid 0 "failed" nowSec).1 t.cid
  else
    match res with
    | some size => clearInProgress (updatePinSize db t.cid size "cached" nowSec).1 t.cid
    | none => clearInProgress (updatePinSize db t.cid 0 "failed" nowSec).1 t.cid

/-- Completion of in-flight task `j`. -/
def taskCompleteFun (s : Sys) (j : Nat) (res : Option Nat) : Sys :=
  match s.tasks.get? j with
  | some t =>
    { s with
        db := commitTaskResult s.db t res (s.nowMs / 1000)
        tasks := s.tasks.eraseIdx j }
  | none => s

/-- A progress callback of an in-flight task (part_006 lines 159–164 /
223–228): `updateProgress`. -/
def taskProgressFun (s : Sys) (j : Nat) (bytes : Nat) : Sys :=
  match s.tasks.get? j with
  | some t => { s with db := updateProgress s.db t.cid bytes s.nowMs }
  | none => s

def isSelfAwaitPhase : Option PassCtl → Bool
  | some ctl => match ctl.phase with | Phase.selfAwait _ _ => true | _ => false
  | none => false

def isSelfShortcutPhase : Option PassCtl → Bool
  | some ctl => match ctl.phase with | Phase.selfShortcutAwait _ _ => true | _ => false
  | none => false

def isFriendAwaitPhase : Option PassCtl → Bool
  | some ctl => match ctl.phase with | Phase.friendAwait _ _ => true | _ => false
  | none => false

def isFriendShortcutPhase : Option PassCtl → Bool
  | some ctl => match ctl.phase with | Phase.friendShortcutAwait _ _ => true | _ => false
  | none => false

/-- One event-loop turn of the discovery/replication subsystem.  Each
constructor is one synchronous segment of the source; coroutine switches
happen only at `await` boundaries or timer firings. -/
inductive SysStep : Sys → Sys → Prop where
  | tick (s : Sys) (d : Nat) : SysStep s (tickFun s d)
  | discovery (s : Sys) (recs : List CidRec)
      (h : ∀ r ∈ recs, r.ptype = "self" ∨ r.ptype = "friend") :
      SysStep s (discoveryFun s recs)
  | passStart (s : Sys) (randS randF : Nat → Nat) :
      SysStep s (passStartFun s randS randF)
  | resumeSelfPinned (s : Sys) (i : Nat) (b : Bool) (randF : Nat → Nat)
      (h : isSelfAwaitPhase (s.passes.get? i) = true) :
      SysStep s (resumeSelfPinnedFun s i b randF)
  | resumeSelfSize (s : Sys) (i : Nat) (size : Option Nat) (randF : Nat → Nat)
      (h : isSelfShortcutPhase (s.passes.get? i) = true) :
      SysStep s (resumeSelfSizeFun s i size randF)
  | resumeFriendPinned (s : Sys) (i : Nat) (b : Bool)
      (h : isFriendAwaitPhase (s.passes.get? i) = true) :
      SysStep s (resumeFriendPinnedFun s i b)
  | resumeFriendSize (s : Sys) (i : Nat) (size : Option Nat)
      (h : isFriendShortcutPhase (s.passes.get? i) = true) :
      SysStep s (resumeFriendSizeFun s i size)
  | taskComplete (s : Sys) (j : Nat) (res : Option Nat)
      (h : j < s.tasks.length) : SysStep s (taskCompleteFun s j res)
  | taskProgress (s : Sys) (j : Nat) (bytes : Nat)
      (h : j < s.tasks.length) : SysStep s (taskProgressFun s j bytes)

/-- Reachability of an event-loop state from process start. -/
def SysReachable : Sys → Sys → Prop := Relation.ReflTransGen SysStep

/-- The property claimed of the scheduler (spec §8, "Concurrency bound"):
at every reachable instant — including instants at which several pinner-job
passes are active — the per-class in-progress counts respect the ceilings. -/
def concurrencyCeilingClaim : Prop :=
  ∀ s, SysReachable initSys s →
    inProgressCountByType s.db "self" ≤ MAX_CONCURRENT_SELF ∧
    inProgressCountByType s.db "friend" ≤ MAX_CONCURRENT_FRIENDS

/-! ### Remote-upload concurrency ceiling (`src/modules/routes.js`)

`remoteUploadHandler` (routes.js lines 363–572) guards a module-level
`activeDownloads` counter: a request arriving at the ceiling is answered
`429` before the counter is touched (lines 369–378); an admitted request
increments it (line 382) and the `finally` block (lines 567–571) decrements
it exactly once, on every exit path of the body. -/

/-- `MAX_CONCURRENT_DOWNLOADS` (routes.js line 118). -/
def MAX_CONCURRENT_DOWNLOADS : Nat := 3

/-- The possible outcomes of an admitted remote-upload body, one per `return`
path of the handler (routes.js lines 386–566). -/
inductive RemoteOutcome where
  | noUrl
  | invalidUrl
  | tooLarge
  | timeout
  | httpError (code : Nat)
  | networkError
  | otherError
  | success
deriving Repr, DecidableEq

/-- The HTTP status each body outcome responds with (routes.js lines 387,
405, 521, 530, 541, 551, 561, 502 resp. the success `res.json`). -/
def remoteOutcomeStatus : RemoteOutcome → Nat
  | RemoteOutcome.noUrl => 400
  | RemoteOutcome.invalidUrl => 400
  | RemoteOutcome.tooLarge => 413
  | RemoteOutcome.timeout => 504
  | RemoteOutcome.httpError code => code
  | RemoteOutcome.networkError => 502
  | RemoteOutcome.otherError => 500
  | RemoteOutcome.success => 200

/-- The counter discipline of one `remoteUploadHandler` invocation: returns
`(status, counter while the body runs, counter after the finally block)`.
The rejection path returns before the increment; every admitted path passes
through the single `finally` decrement. -/
def remoteUploadCounter (active : Nat) (o : RemoteOutcome) : Nat × Nat × Nat :=
  if active ≥ MAX_CONCURRENT_DOWNLOADS then (429, active, active)
  else (remoteOutcomeStatus o, active + 1, (active + 1) - 1)

/-- The lifecycle of the `activeDownloads` counter across interleaved
requests: admission (increment, only below the ceiling), immediate rejection
(counter untouched — there is no queue), and completion (the `finally`
decrement of an admitted request). -/
inductive DlStep : Nat → Nat → Prop where
  | accept (n : Nat) (h : n < MAX_CONCURRENT_DOWNLOADS) : DlStep n (n + 1)
  | reject (n : Nat) (h : n ≥ MAX_CONCURRENT_DOWNLOADS) : DlStep n n
  | complete (n : Nat) : DlStep (n + 1) n

/-- Counter values reachable from process start (`let activeDownloads = 0`,
routes.js line 119). -/
def DlReachable : Nat → Prop := Relation.ReflTransGen DlStep 0

/-! ### Gateway selector (`src/modules/gateways.js`)

`fs.readFileSync(GATEWAYS_PATH)` is injected as `file : Option (List String)`
(`none` models a read/parse failure), probing as `probe : String → Bool`
(`testGateway`'s verdict per URL).  The `refreshPromise` single-flight guard
only deduplicates concurrent refreshes and has no effect on the selected
value; it is not modelled. -/

/-- `FALLBACK_GATEWAY` (gateways.js line 8). -/
def FALLBACK_GATEWAY : String := "https://dweb.link"

/-- `REFRESH_TTL_MS` (gateways.js line 7). -/
def REFRESH_TTL_MS : Nat := 60 * 1000

/-- The module state of gateways.js: `cachedGateways`, `selectedGateway`
(initially `""`), `lastTestAt` (initially 0). -/
structure GwState where
  cachedGateways : Option (List String)
  selectedGateway : String
  lastTestAt : Nat
deriving Repr, DecidableEq

def GwState.init : GwState :=
  { cachedGateways := none, selectedGateway := "", lastTestAt := 0 }

/-- JavaScript whitespace for `String.trim` (the ASCII part; exotic unicode
space characters do not occur in gateway URLs). -/
def isJsSpace (c : Char) : Bool :=
  c = ' ' ∨ c = '\t' ∨ c = '\n' ∨ c = '\r' ∨ c = Char.ofNat 11 ∨ c = Char.ofNat 12

/-- JS `String.prototype.trim`. -/
def jsTrim (s : String) : String :=
  String.mk (((s.toList.dropWhile isJsSpace).reverse.dropWhile isJsSpace).reverse)

/-- JS `String.prototype.startsWith`. -/
def strStartsWith (s pre : String) : Bool :=
  pre.toList.isPrefixOf s.toList

/-- `loadGateways` (gateways.js lines 26–45): cached after the first read;
the parsed array is trimmed and filtered to nonempty `http…` entries; a
read/parse failure caches `[FALLBACK_GATEWAY]`. -/
def loadGateways (file : Option (List String)) (st : GwState) :
    List String × GwState :=
  match st.cachedGateways with
  | some gs => (gs, st)
  | none =>
    match file with
    | some parsed =>
      let gs := (parsed.map jsTrim).filter
        (fun e => e ≠ "" ∧ strStartsWith e "http")
      (gs, { st with cachedGateways := some gs })
    | none =>
      ([FALLBACK_GATEWAY], { st with cachedGateways := some [FALLBACK_GATEWAY] })

/-- `refreshGateways` (gateways.js lines 71–99): shuffle the candidates,
probe in order, stop at the first success; fall back to the fixed default
when none passes.  Returns the new state and the selected URL. -/
def refreshGateways (probe : String → Bool) (rand : Nat → Nat)
    (file : Option (List String)) (nowMs : Nat) (st : GwState) :
    GwState × String :=
  let l := loadGateways file st
  let gateways := fisherYates rand l.1
  let found := (gateways.find? probe).getD ""
  let selected := if found = "" then FALLBACK_GATEWAY else found
  ({ l.2 with selectedGateway := selected, lastTestAt := nowMs }, selected)

/-- `getSelectedGateway` (gateways.js lines 101–105): the last selection
when one exists, else `gateways[0] || FALLBACK_GATEWAY`. -/
def getSelectedGateway (file : Option (List String)) (st : GwState) :
    String × GwState :=
  if st.selectedGateway ≠ "" then (st.selectedGateway, st)
  else
    let l := loadGateways file st
    (match l.1.head? with
     | some g => if g = "" then FALLBACK_GATEWAY else g
     | none => FALLBACK_GATEWAY,
     l.2)

/-- The unreserved characters of JavaScript's `encodeURIComponent`. -/
def isUnreservedChar (c : Char) : Bool :=
  c.isAlphanum ∨ c = '-' ∨ c = '_' ∨ c = '.' ∨ c = '!' ∨ c = '~' ∨ c = '*' ∨
    c = Char.ofNat 39 ∨ c = '(' ∨ c = ')'

def hexDigitUpper (n : Nat) : String :=
  String.singleton (if n < 10 then Char.ofNat (48 + n) else Char.ofNat (55 + n))

def byteToPercentHex (b : Nat) : String :=
  "%" ++ hexDigitUpper (b / 16) ++ hexDigitUpper (b % 16)

/-- JavaScript's `encodeURIComponent` builtin: unreserved characters pass
through, every other character is the percent-encoding of its UTF-8 bytes. -/
def encodeURIComponent (s : String) : String :=
  String.join (s.toList.map (fun c =>
    if isUnreservedChar c then String.singleton c
    else String.join (((String.singleton c).toUTF8.toList.map
      (fun b => byteToPercentHex b.toNat)))))

/-- `baseUrl.replace(/\/$/, "")`: strip one trailing slash. -/
def stripTrailingSlash (s : String) : String :=
  match s.toList.getLast? with
  | some c => if c = '/' then String.mk s.toList.dropLast else s
  | none => s

/-- `getGatewayUrl` (gateways.js lines 107–120): refresh when the TTL has
lapsed, then join the selected base with `/ipfs/<cid>` and the optional
`?filename=` query parameter. -/
def getGatewayUrl (probe : String → Bool) (rand : Nat → Nat)
    (file : Option (List String)) (nowMs : Nat) (st : GwState)
    (cid : String) (filename : Option String) : GwState × String :=
  let st1 :=
    if nowMs - st.lastTestAt > REFRESH_TTL_MS then
      (refreshGateways probe rand file nowMs st).1
    else st
  let g := getSelectedGateway file st1
  let base := stripTrailingSlash g.1
  let url := base ++ "/ipfs/" ++ cid
  let url :=
    match filename with
    | some fn => url ++ "?filename=" ++ encodeURIComponent fn
    | none => url
  (g.2, url)

/-! ### Reference extractor (`src/nostr.js` lines 18–78)

The three regex scans of `extractCidsFromContent` are embedded as direct
scanners over the character list, reproducing the JS regex semantics
(leftmost match, greedy quantifiers, preferred-first alternation,
non-overlapping `/g` scanning with `lastIndex` advancing past each match,
ASCII `\b` word boundaries, `/i` case-insensitivity for the URL pattern). -/

/-- JS `\w` (ASCII, no unicode flag): `[A-Za-z0-9_]`. -/
def isJsWordChar (c : Char) : Bool := c.isAlphanum ∨ c = '_'

/-- The base58 class of `CID_V0_PATTERN`: `[1-9A-HJ-NP-Za-km-z]`. -/
def isBase58Char (c : Char) : Bool :=
  ('1' ≤ c ∧ c ≤ '9') ∨ ('A' ≤ c ∧ c ≤ 'H') ∨ ('J' ≤ c ∧ c ≤ 'N') ∨
    ('P' ≤ c ∧ c ≤ 'Z') ∨ ('a' ≤ c ∧ c ≤ 'k') ∨ ('m' ≤ c ∧ c ≤ 'z')

/-- The class of `CID_V1_PATTERN`: `[a-zA-Z2-7]`. -/
def isBase32ishChar (c : Char) : Bool :=
  c.isAlpha ∨ ('2' ≤ c ∧ c ≤ '7')

/-- The capture class of `IPFS_URL_PATTERN`: `[A-Za-z0-9._-]`. -/
def isCaptureChar (c : Char) : Bool :=
  c.isAlphanum ∨ c = '.' ∨ c = '_' ∨ c = '-'

/-- `\b` holds before position `i` (start of text or preceding non-word
character; all our patterns begin with a word character). -/
def boundaryBefore (cs : List Char) (i : Nat) : Bool :=
  match i with
  | 0 => true
  | k + 1 =>
    match cs.get? k with
    | some c => ¬ isJsWordChar c
    | none => true

/-- Case-insensitive literal match at position `i` (`lit` given lowercase). -/
def matchLitCI (cs : List Char) (i : Nat) (lit : List Char) : Bool :=
  ((cs.drop i).take lit.length).map Char.toLower = lit

/-- `CID_V0_PATTERN = /\bQm[1-9A-HJ-NP-Za-km-z]{44}\b/g` matches at `i`. -/
def v0MatchAt (cs : List Char) (i : Nat) : Bool :=
  boundaryBefore cs i &&
  (cs.get? i == some 'Q') && (cs.get? (i + 1) == some 'm') &&
  (((cs.drop (i + 2)).take 44).length == 44) &&
  ((cs.drop (i + 2)).take 44).all isBase58Char &&
  (match cs.get? (i + 46) with
   | some c => ! isJsWordChar c
   | none => true)

/-- Non-overlapping left-to-right scan for `CID_V0_PATTERN` (`text.match`,
nostr.js line 64): after a match the scan resumes past it. -/
def scanV0 (cs : List Char) : Nat → Nat → List String
  | 0, _ => []
  | fuel + 1, i =>
    if cs.length ≤ i then []
    else if v0MatchAt cs i then
      String.mk ((cs.drop i).take 46) :: scanV0 cs fuel (i + 46)
    else scanV0 cs fuel (i + 1)

def v0Matches (text : String) : List String :=
  scanV0 text.toList (text.toList.length + 1) 0

/-- `CID_V1_PATTERN = /\b[bB][a-zA-Z2-7]{58,}\b/g` at `i`: greedy maximal
class run of length ≥ 58; the closing `\b` cannot be satisfied by
backtracking into the run (every class character is a word character), so
the match succeeds iff the character after the maximal run is non-word or
the end.  Returns the match length. -/
def v1MatchAt (cs : List Char) (i : Nat) : Option Nat :=
  if boundaryBefore cs i then
    match cs.get? i with
    | some c0 =>
      if c0 = 'b' ∨ c0 = 'B' then
        let run := ((cs.drop (i + 1)).takeWhile isBase32ishChar).length
        if run ≥ 58 then
          match cs.get? (i + 1 + run) with
          | some c => if isJsWordChar c then none else some (1 + run)
          | none => some (1 + run)
        else none
      else none
    | none => none
  else none

def scanV1 (cs : List Char) : Nat → Nat → List String
  | 0, _ => []
  | fuel + 1, i =>
    if cs.length ≤ i then []
    else
      match v1MatchAt cs i with
      | some len =>
        String.mk ((cs.drop i).take len) :: scanV1 cs fuel (i + len)
      | none => scanV1 cs fuel (i + 1)

def v1Matches (text : String) : List String :=
  scanV1 text.toList (text.toList.length + 1) 0

/-- One domain alternative of the URL pattern at position `p`:
`(dweb\.link|ipfs\.io)\/ipfs\/` followed by the capture
`([A-Za-z0-9]+(?:[A-Za-z0-9._-]*))` (greedy; must start alphanumeric).
Returns the capture and the scan position after the whole match. -/
def urlDomainAttempt (cs : List Char) (p : Nat) (dom : List Char) :
    Option (String × Nat) :=
  if matchLitCI cs p (dom ++ "/ipfs/".toList) then
    let q := p + dom.length + 6
    match cs.get? q with
    | some c =>
      if c.isAlphanum then
        let cap := (cs.drop q).takeWhile isCaptureChar
        some (String.mk cap, q + cap.length)
      else none
    | none => none
  else none

def urlHostAttempt (cs : List Char) (p : Nat) : Option (String × Nat) :=
  match urlDomainAttempt cs p "dweb.link".toList with
  | some r => some r
  | none => urlDomainAttempt cs p "ipfs.io".toList

/-- The candidate start positions of the domain literal for the
`https?:\/\/(?:[^\/]+\.)?` part, in the backtracking order of the engine:
the optional group is tried first with `[^\/]+` as long as possible (each
candidate `p = k + t + 1` needs `cs[k+t] = '.'` and no `/` before it), then
the group is skipped (`p = k`). -/
def urlHostPositions (cs : List Char) (k : Nat) : List Nat :=
  let m := ((cs.drop k).takeWhile (fun c => c ≠ '/')).length
  (((List.range m).map (fun x => m - x)).filterMap (fun t =>
    if cs.get? (k + t) = some '.' then some (k + t + 1) else none)) ++ [k]

/-- `IPFS_URL_PATTERN` (nostr.js line 21) attempted at position `i`:
`\b(?:ipfs:\/\/|https?:\/\/(?:[^\/]+\.)?(dweb\.link|ipfs\.io)\/ipfs\/)` then
the capture; case-insensitive.  The `ipfs://` alternative is preferred. -/
def urlCaptureAt (cs : List Char) (i : Nat) : Option (String × Nat) :=
  if boundaryBefore cs i then
    if matchLitCI cs i "ipfs://".toList then
      let j := i + 7
      match cs.get? j with
      | some c =>
        if c.isAlphanum then
          let cap := (cs.drop j).takeWhile isCaptureChar
          some (String.mk cap, j + cap.length)
        else none
      | none => none
    else
      let kq : Option Nat :=
        if matchLitCI cs i "https://".toList then some (i + 8)
        else if matchLitCI cs i "http://".toList then some (i + 7)
        else none
      match kq with
      | some k => (urlHostPositions cs k).findSome? (urlHostAttempt cs)
      | none => none
  else none

/-- The `exec` loop over `IPFS_URL_PATTERN` (nostr.js lines 57–61):
captures in match order, scanning from each match's `lastIndex`. -/
def scanUrl (cs : List Char) : Nat → Nat → List String
  | 0, _ => []
  | fuel + 1, i =>
    if cs.length ≤ i then []
    else
      match urlCaptureAt cs i with
      | some r => r.1 :: scanUrl cs fuel r.2
      | none => scanUrl cs fuel (i + 1)

def urlCaptures (text : String) : List String :=
  scanUrl text.toList (text.toList.length + 1) 0

/-- `cleanCid` (nostr.js lines 23–29): falsy input → null; first path
segment up to `/?#`; strip non-alphanumerics; length window 46–120. -/
def cleanCid (raw : String) : Option String :=
  if raw = "" then none
  else
    let firstSegment := raw.toList.takeWhile
      (fun c => c ≠ '/' ∧ c ≠ '?' ∧ c ≠ '#')
    let trimmed := firstSegment.filter Char.isAlphanum
    if trimmed.length < 46 ∨ trimmed.length > 120 then none
    else some (String.mk trimmed)

/-- The `Set` insertion of the extractor: `if (cid) found.add(cid)` keeps
first-insertion order and ignores duplicates. -/
def addFound (found : List String) (raw : String) : List String :=
  match cleanCid raw with
  | some c => if c ∈ found then found else found ++ [c]
  | none => found

/-- `extractCidsFromContent` (nostr.js lines 53–78): URL captures, then bare
CIDv0 matches, then bare CIDv1 matches, each cleaned and `Set`-inserted;
`Array.from` returns the insertion order. -/
def extractCidsFromContent (text : String) : List String :=
  let f1 := (urlCaptures text).foldl addFound []
  let f2 := (v0Matches text).foldl addFound f1
  (v1Matches text).foldl addFound f2

/-! ### Discovery pagination (`src/modules/middleware.js` lines 238–294)

The relay answers are injected as `pages : Nat → Nat → List NEvent`, the
response to the fetch of iteration `pc` with time cursor `until` — an
arbitrary function, so the theorems quantify over every possible sequence of
relay responses.  Only the fields the loop inspects are modelled. -/

structure NEvent where
  id : String
  created_at : Nat
deriving Repr, DecidableEq

/-- The dedup-by-id accumulation (middleware.js lines 246–250). -/
def mergeEvents (acc : List NEvent) (evs : List NEvent) : List NEvent :=
  evs.foldl (fun a e => if a.any (fun x => x.id = e.id) then a else a ++ [e]) acc

/-- `Math.min(...events.map(e => e.created_at))` for a nonempty page. -/
def minCreatedAt : List NEvent → Nat
  | [] => 0
  | e :: rest => rest.foldl (fun m x => min m x.created_at) e.created_at

/-- The `while (hasMore && pageCount < 100)` loop shared verbatim by
`fetchAllUserEvents` (lines 243–261) and `fetchAllFollowingEvents` (lines
273–291): fetch a page; stop on an empty page; merge; stop when the page's
minimum timestamp equals the cursor (no progress); else move the cursor to
`min - 1` and count the page.  Returns the accumulated events and the number
of page fetches performed.  (`until = minT - 1` underflows to `-1` in JS for
`minT = 0`; `Nat` truncation to `0` does not affect the loop structure.) -/
def fetchAllLoop (pages : Nat → Nat → List NEvent) (acc : List NEvent)
    (u : Nat) (pc : Nat) : List NEvent × Nat :=
  if h : pc < 100 then
    let evs := pages pc u
    if evs.isEmpty then (acc, 1)
    else
      let acc2 := mergeEvents acc evs
      let minT := minCreatedAt evs
      if minT = u then (acc2, 1)
      else
        let r := fetchAllLoop pages acc2 (minT - 1) (pc + 1)
        (r.1, r.2 + 1)
  else (acc, 0)
termination_by 100 - pc
decreasing_by omega

/-- The final `.sort((a, b) => b.created_at - a.created_at)` (stable in
Node's V8, as is `mergeSort`). -/
def sortByCreatedDesc (l : List NEvent) : List NEvent :=
  l.mergeSort (fun a b => b.created_at ≤ a.created_at)

/-- `fetchAllUserEvents` (middleware.js lines 238–265), cursor starting at
`Math.floor(Date.now() / 1000)`; returns the events and the page count. -/
def fetchAllUserEvents (pages : Nat → Nat → List NEvent) (nowSec : Nat) :
    List NEvent × Nat :=
  let r := fetchAllLoop pages [] nowSec 0
  (sortByCreatedDesc r.1, r.2)

/-- `fetchAllFollowingEvents` (middleware.js lines 267–294): the identical
loop; the different relay filter (author set) lives inside the injected
`pages` oracle. -/
def fetchAllFollowingEvents (pages : Nat → Nat → List NEvent) (nowSec : Nat) :
    List NEvent × Nat :=
  let r := fetchAllLoop pages [] nowSec 0
  (sortByCreatedDesc r.1, r.2)

/-! ### Concrete instances used by counterexamples and witnesses -/

/-- A `Math.random` draw sequence under which Fisher–Yates is the identity
(`j = i` at every index). -/
def idRand : Nat → Nat := fun n => n

/-- A draw sequence swapping positions 2 and 0 (used to make a second pass
select a different candidate order). -/
def randSwap20 : Nat → Nat := fun n => if n = 2 then 0 else n

/-- A pending self reference as inserted by discovery. -/
def pinC1 : Pin := createPinObject 1 "e1" "c1" 0 100 "a" "self" "pending" 50 50

def dbC1 : DB := { pins := [pinC1], nextId := 2, inProgress := [] }

/-- A daemon oracle whose existence check always answers "already pinned". -/
def oracleC1 : SchedOracle :=
  { alreadyPinned := fun _ => true, sizeOf := fun _ => some 7,
    pinOutcome := fun _ => true, cacheOutcome := fun _ => some 7 }

/-- A friend reference that has already reached the `'cached'` status. -/
def pinC2 : Pin := createPinObject 1 "e1" "c1" 5 100 "a" "friend" "cached" 50 60

def dbC2 : DB := { pins := [pinC2], nextId := 2, inProgress := [] }

/-- Three pending self references discovered in one batch. -/
def recsC3 : List CidRec :=
  [{ eventId := "e1", cid := "c1", timestamp := 100, author := "a", ptype := "self" },
   { eventId := "e2", cid := "c2", timestamp := 100, author := "a", ptype := "self" },
   { eventId := "e3", cid := "c3", timestamp := 100, author := "a", ptype := "self" }]

/-- The interleaving that overruns the self ceiling: pass A starts and
suspends at `await isPinned(c1)`; pass B starts (timer fired again) and
suspends at `await isPinned(c3)`; A resumes twice, marking `c1` and `c2`;
B resumes, marking `c3` — three self references in progress at once.  Every
coroutine switch is at an `await` boundary. -/
def sysC3 : Sys :=
  resumeSelfPinnedFun
    (resumeSelfPinnedFun
      (resumeSelfPinnedFun
        (passStartFun (passStartFun (discoveryFun initSys recsC3) idRand idRand)
          randSwap20 idRand)
        0 false idRand)
      0 false idRand)
    1 false idRand

/-- A stale in-progress entry (no progress since time 0). -/
def infoC5 : ProgInfo :=
  { startTime := 0, lastProgress := 0, ptype := "self", bytes := none }

def dbC5 : DB :=
  { pins := [pinC1], nextId := 2, inProgress := [("c1", infoC5)] }

/-- The spec's extraction scenario input (spec §8, scenario 1). -/
def scenarioText : String :=
  "grab this ipfs://QmT78zSuBmuS4z925WZfrqQ1qHaJ56DQaTfyMUF7F8ff91 now"

def scenarioCid : String := "QmT78zSuBmuS4z925WZfrqQ1qHaJ56DQaTfyMUF7F8ff91"

/-- The selection half of the spec's terminality property: a candidate
selection never returns a reference whose status is `'pinned'` or
`'cached'`. -/
def terminalSelectionClaim : Prop :=
  ∀ (db : DB) (t : String) (limit : Nat) (rand : Nat → Nat),
    ∀ p ∈ getPendingCidsByType db t limit rand,
      p.status ≠ "pinned" ∧ p.status ≠ "cached"

/-- Invariant tying an in-flight task to the store: its reference is still
marked in progress, or its status has already left `'pending'`. -/
def TaskOk (db : DB) (t : Task) : Prop :=
  isInProgress db t.cid = true ∨ statusOf db t.cid ≠ some "pending"

/-! ## Helper lemmas: Fisher–Yates shuffles are permutations -/

theorem set_self_eq {α : Type} :
    ∀ (l : List α) (i : Nat) (h : i < l.length), l.set i (l.get ⟨i, h⟩) = l
  | _ :: _, 0, _ => rfl
  | a :: t, i + 1, h => by
    show a :: t.set i (t.get ⟨i, Nat.lt_of_succ_lt_succ h⟩) = a :: t
    exact congrArg (a :: ·) (set_self_eq t i (Nat.lt_of_succ_lt_succ h))

theorem cons_set_perm {α : Type} :
    ∀ (t : List α) (k : Nat) (h : k < t.length) (a : α),
      List.Perm (t.get ⟨k, h⟩ :: t.set k a) (a :: t)
  | b :: t, 0, _, a => List.Perm.swap a b t
  | b :: t, k + 1, h, a => by
    have ih := cons_set_perm t k (Nat.lt_of_succ_lt_succ h) a
    show List.Perm (t.get ⟨k, Nat.lt_of_succ_lt_succ h⟩ :: b :: t.set k a)
      (a :: b :: t)
    exact ((List.Perm.swap b _ _).trans (ih.cons b)).trans (List.Perm.swap a b t)

theorem set_swap_perm {α : Type} :
    ∀ (l : List α) (i j : Nat) (hij : i < j) (hj : j < l.length),
      List.Perm
        ((l.set i (l.get ⟨j, hj⟩)).set j (l.get ⟨i, Nat.lt_trans hij hj⟩)) l
  | a :: t, 0, j + 1, _, hj => by
    show List.Perm (t.get ⟨j, Nat.lt_of_succ_lt_succ hj⟩ :: t.set j a) (a :: t)
    exact cons_set_perm t j (Nat.lt_of_succ_lt_succ hj) a
  | a :: t, i + 1, j + 1, hij, hj => by
    have ih := set_swap_perm t i j (Nat.lt_of_succ_lt_succ hij)
      (Nat.lt_of_succ_lt_succ hj)
    show List.Perm
      (a :: (t.set i (t.get ⟨j, Nat.lt_of_succ_lt_succ hj⟩)).set j
        (t.get ⟨i, Nat.lt_trans (Nat.lt_of_succ_lt_succ hij)
          (Nat.lt_of_succ_lt_succ hj)⟩))
      (a :: t)
    exact ih.cons a

theorem swapAt_perm {α : Type} (l : List α) (i j : Nat) :
    List.Perm (swapAt l i j) l := by
  unfold swapAt
  by_cases hi2 : i < l.length
  · by_cases hj2 : j < l.length
    · rw [List.get?_eq_get hi2, List.get?_eq_get hj2]
      show List.Perm ((l.set i (l.get ⟨j, hj2⟩)).set j (l.get ⟨i, hi2⟩)) l
      rcases Nat.lt_trichotomy i j with h | h | h
      · exact set_swap_perm l i j h hj2
      · subst h
        rw [List.set_set, set_self_eq l i hi2]
      · rw [List.set_comm _ _ _ (Nat.ne_of_gt h)]
        exact set_swap_perm l j i h hi2
    · rw [List.get?_eq_none.mpr (Nat.le_of_not_lt hj2)]
      cases l.get? i <;> exact List.Perm.refl l
  · rw [List.get?_eq_none.mpr (Nat.le_of_not_lt hi2)]

theorem fisherYatesGo_perm {α : Type} (rand : Nat → Nat) :
    ∀ (n : Nat) (l : List α), List.Perm (fisherYatesGo rand n l) l
  | 0, _ => List.Perm.refl _
  | n + 1, l =>
    (fisherYatesGo_perm rand n _).trans (swapAt_perm l (n + 1) _)

theorem fisherYates_perm {α : Type} (rand : Nat → Nat) (l : List α) :
    List.Perm (fisherYates rand l) l :=
  fisherYatesGo_perm rand (l.length - 1) l

/-! ## C2 — terminality of `pinned`/`cached` under re-selection -/

/-- C2 (counterexample): the claim that `getPendingCidsByType` never returns
a reference whose status is `'pinned'` or `'cached'` is false — the selection
filter (database.js line 220) excludes only `'pinned'`, so a store holding a
friend reference already in status `'cached'` has that reference returned
again as a pending candidate. -/
theorem terminalSelection_counterexample : ¬ terminalSelectionClaim := by
  intro h
  exact (h dbC2 "friend" 1 idRand pinC2 (by decide)).2 (by decide)

/-- C2 (amended): every reference returned by `getPendingCidsByType` has the
requested class, a status other than `'pinned'`, and no in-progress marker;
`'pinned'` is thus never re-selected, but `'cached'` (like `'failed'` and
`'pending'`) remains selectable. -/
theorem getPendingCids_excludes (db : DB) (t : String) (limit : Nat)
    (rand : Nat → Nat) (p : Pin)
    (hp : p ∈ getPendingCidsByType db t limit rand) :
    p.ptype = t ∧ p.status ≠ "pinned" ∧ isInProgress db p.cid = false := by
  unfold getPendingCidsByType at hp
  have h1 : p ∈ fisherYates rand (pendingPool db t) := List.mem_of_mem_take hp
  have h2 : p ∈ pendingPool db t := (fisherYates_perm rand _).mem_iff.mp h1
  unfold pendingPool at h2
  have h3 := List.mem_filter.mp h2
  have h4 : p.ptype = t ∧ p.status ≠ "pinned" ∧
      ¬ db.inProgress.any (fun e => e.1 = p.cid) = true :=
    of_decide_eq_true h3.2
  refine ⟨h4.1, h4.2.1, ?_⟩
  unfold isInProgress
  exact Bool.eq_false_iff.mpr h4.2.2

/-- C2 (witness for the amended theorem). -/
theorem getPendingCids_excludes_witness :
    pinC2.ptype = "friend" ∧ pinC2.status ≠ "pinned" ∧
      isInProgress dbC2 pinC2.cid = false :=
  getPendingCids_excludes dbC2 "friend" 1 idRand pinC2 (by decide)

/-! ## C4 — deduplicated, first-discovery-wins insertion -/

/-- C4: inserting a CID that is absent succeeds (`true`) and grows the store
by exactly one record; re-inserting the same CID (even with a different
discovery timestamp) returns `false` and leaves the store — in particular
the originally stored record with its original `timestamp` — unchanged. -/
theorem insertCid_dedup (db : DB) (r1 r2 : CidRec) (now1 now2 : Nat)
    (hcid : r2.cid = r1.cid) (habs : pinsHas db r1.cid = false) :
    (insertCidIfNotExists db r1 now1).2 = true ∧
    (insertCidIfNotExists (insertCidIfNotExists db r1 now1).1 r2 now2).2 = false ∧
    (insertCidIfNotExists (insertCidIfNotExists db r1 now1).1 r2 now2).1 =
      (insertCidIfNotExists db r1 now1).1 ∧
    (insertCidIfNotExists db r1 now1).1.pins.length = db.pins.length + 1 ∧
    getPinByCid (insertCidIfNotExists (insertCidIfNotExists db r1 now1).1 r2 now2).1
        r1.cid =
      some (createPinObject db.nextId r1.eventId r1.cid 0 r1.timestamp r1.author
        r1.ptype "pending" now1 now1) := by
  have e1 : insertCidIfNotExists db r1 now1 =
      ({ db with
          pins := db.pins ++ [createPinObject db.nextId r1.eventId r1.cid 0
            r1.timestamp r1.author r1.ptype "pending" now1 now1]
          nextId := db.nextId + 1 }, true) := by
    unfold insertCidIfNotExists
    rw [habs]
    simp
  have hhas2v : pinsHas
      { db with
          pins := db.pins ++ [createPinObject db.nextId r1.eventId r1.cid 0
            r1.timestamp r1.author r1.ptype "pending" now1 now1]
          nextId := db.nextId + 1 } r2.cid = true := by
    unfold pinsHas
    rw [List.any_append]
    have hone : [createPinObject db.nextId r1.eventId r1.cid 0 r1.timestamp r1.author
        r1.ptype "pending" now1 now1].any (fun p => p.cid = r2.cid) = true := by
      simp [createPinObject, hcid]
    rw [hone, Bool.or_true]
  have e2 : insertCidIfNotExists
      { db with
          pins := db.pins ++ [createPinObject db.nextId r1.eventId r1.cid 0
            r1.timestamp r1.author r1.ptype "pending" now1 now1]
          nextId := db.nextId + 1 } r2 now2 =
      ({ db with
          pins := db.pins ++ [createPinObject db.nextId r1.eventId r1.cid 0
            r1.timestamp r1.author r1.ptype "pending" now1 now1]
          nextId := db.nextId + 1 }, false) := by
    unfold insertCidIfNotExists
    rw [if_pos hhas2v]
  refine ⟨?_, ?_, ?_, ?_, ?_⟩
  · rw [e1]
  · rw [e1]
    dsimp only
    rw [e2]
  · rw [e1]
    dsimp only
    rw [e2]
  · rw [e1]
    simp
  · rw [e1]
    dsimp only
    rw [e2]
    have hall : ∀ p ∈ db.pins, ¬ ((fun q : Pin => decide (q.cid = r1.cid)) p = true) := by
      intro p hp hc
      have hmem : db.pins.any (fun q => q.cid = r1.cid) = true :=
        List.any_eq_true.mpr ⟨p, hp, hc⟩
      rw [pinsHas] at habs
      rw [habs] at hmem
      cases hmem
    have hnone : db.pins.find? (fun q : Pin => q.cid = r1.cid) = none :=
      List.find?_eq_none.mpr hall
    unfold getPinByCid
    dsimp only
    rw [List.find?_append, hnone]
    simp [createPinObject, List.find?]

/-- C4 (witness): concretely, inserting `c2` into the one-pin store `dbC2`
twice (second time with a later discovery timestamp) inserts exactly once and
keeps the first record. -/
theorem insertCid_dedup_witness :
    (insertCidIfNotExists dbC2
        { eventId := "e9", cid := "c2", timestamp := 100, author := "a",
          ptype := "self" } 500).2 = true ∧
    (insertCidIfNotExists (insertCidIfNotExists dbC2
        { eventId := "e9", cid := "c2", timestamp := 100, author := "a",
          ptype := "self" } 500).1
        { eventId := "e10", cid := "c2", timestamp := 200, author := "b",
          ptype := "self" } 600).2 = false ∧
    (insertCidIfNotExists (insertCidIfNotExists dbC2
        { eventId := "e9", cid := "c2", timestamp := 100, author := "a",
          ptype := "self" } 500).1
        { eventId := "e10", cid := "c2", timestamp := 200, author := "b",
          ptype := "self" } 600).1 =
      (insertCidIfNotExists dbC2
        { eventId := "e9", cid := "c2", timestamp := 100, author := "a",
          ptype := "self" } 500).1 ∧
    (insertCidIfNotExists dbC2
        { eventId := "e9", cid := "c2", timestamp := 100, author := "a",
          ptype := "self" } 500).1.pins.length = dbC2.pins.length + 1 ∧
    getPinByCid (insertCidIfNotExists (insertCidIfNotExists dbC2
        { eventId := "e9", cid := "c2", timestamp := 100, author := "a",
          ptype := "self" } 500).1
        { eventId := "e10", cid := "c2", timestamp := 200, author := "b",
          ptype := "self" } 600).1 "c2" =
      some (createPinObject dbC2.nextId "e9" "c2" 0 100 "a" "self" "pending"
        500 500) :=
  insertCid_dedup dbC2
    { eventId := "e9", cid := "c2", timestamp := 100, author := "a",
      ptype := "self" }
    { eventId := "e10", cid := "c2", timestamp := 200, author := "b",
      ptype := "self" } 500 600 (by decide) (by decide)

/-! ## C10 — `recordPin` on an existing CID is an in-place, frame-preserving
update -/

/-- C10: `recordPin` on a CID already present returns `true`, leaves the
store size unchanged, and rewrites only the `size`, `status` and
`updated_at` fields of the record at that CID, preserving its `id`,
`event_id`, `cid`, `timestamp`, `author`, `type` and `created_at` — and
leaving every record at a different CID untouched (position included). -/
theorem recordPin_update_frame (db : DB) (a : RecordArgs) (now : Nat)
    (hhas : pinsHas db a.cid = true) :
    (recordPin db a now).2 = true ∧
    (recordPin db a now).1.pins.length = db.pins.length ∧
    ∀ i, ∀ h : i < db.pins.length, ∀ h2 : i < (recordPin db a now).1.pins.length,
      (((db.pins.get ⟨i, h⟩).cid = a.cid →
        ((recordPin db a now).1.pins.get ⟨i, h2⟩).id = (db.pins.get ⟨i, h⟩).id ∧
        ((recordPin db a now).1.pins.get ⟨i, h2⟩).event_id = (db.pins.get ⟨i, h⟩).event_id ∧
        ((recordPin db a now).1.pins.get ⟨i, h2⟩).cid = (db.pins.get ⟨i, h⟩).cid ∧
        ((recordPin db a now).1.pins.get ⟨i, h2⟩).timestamp = (db.pins.get ⟨i, h⟩).timestamp ∧
        ((recordPin db a now).1.pins.get ⟨i, h2⟩).author = (db.pins.get ⟨i, h⟩).author ∧
        ((recordPin db a now).1.pins.get ⟨i, h2⟩).ptype = (db.pins.get ⟨i, h⟩).ptype ∧
        ((recordPin db a now).1.pins.get ⟨i, h2⟩).created_at = (db.pins.get ⟨i, h⟩).created_at ∧
        ((recordPin db a now).1.pins.get ⟨i, h2⟩).size = a.size ∧
        ((recordPin db a now).1.pins.get ⟨i, h2⟩).status = a.status ∧
        ((recordPin db a now).1.pins.get ⟨i, h2⟩).updated_at = now) ∧
      ((db.pins.get ⟨i, h⟩).cid ≠ a.cid →
        (recordPin db a now).1.pins.get ⟨i, h2⟩ = db.pins.get ⟨i, h⟩)) := by
  have e1 : recordPin db a now =
      ({ db with
          pins := db.pins.map (fun p =>
            if p.cid = a.cid then
              { p with size := a.size, status := a.status, updated_at := now }
            else p) }, true) := by
    unfold recordPin
    rw [if_pos hhas]
  refine ⟨?_, ?_, ?_⟩
  · rw [e1]
  · rw [e1]
    simp
  · intro i h h2
    have hq : (recordPin db a now).1.pins.get? i =
        (db.pins.get? i).map (fun p : Pin =>
          if p.cid = a.cid then
            { p with size := a.size, status := a.status, updated_at := now }
          else p) := by
      rw [e1]
      dsimp only
      rw [List.get?_eq_getElem?, List.get?_eq_getElem?]
      exact List.getElem?_map _ _ _
    rw [List.get?_eq_get h, List.get?_eq_get h2] at hq
    have hget : (recordPin db a now).1.pins.get ⟨i, h2⟩ =
        (fun p : Pin =>
          if p.cid = a.cid then
            { p with size := a.size, status := a.status, updated_at := now }
          else p) (db.pins.get ⟨i, h⟩) := by
      exact Option.some.inj hq
    constructor
    · intro hc
      rw [hget]
      dsimp only
      rw [if_pos hc]
      exact ⟨rfl, rfl, rfl, rfl, rfl, rfl, rfl, rfl, rfl, rfl⟩
    · intro hc
      rw [hget]
      dsimp only
      rw [if_neg hc]

/-- C10 (witness): update the cached friend pin of `dbC2` in place. -/
theorem recordPin_update_frame_witness :
    (recordPin dbC2
      { eventId := "e7", cid := "c1", size := 99, timestamp := 100,
        author := "a", ptype := "friend", status := "cached" } 777).2 = true ∧
    (recordPin dbC2
      { eventId := "e7", cid := "c1", size := 99, timestamp := 100,
        author := "a", ptype := "friend", status := "cached" } 777).1.pins.length =
      dbC2.pins.length :=
  ⟨(recordPin_update_frame dbC2
      { eventId := "e7", cid := "c1", size := 99, timestamp := 100,
        author := "a", ptype := "friend", status := "cached" } 777 (by decide)).1,
   (recordPin_update_frame dbC2
      { eventId := "e7", cid := "c1", size := 99, timestamp := 100,
        author := "a", ptype := "friend", status := "cached" } 777 (by decide)).2.1⟩

/-! ## C6 — remote-download backpressure -/

/-- C6: a remote-upload request that arrives with the `activeDownloads`
counter at the ceiling is answered `429` immediately with the counter
untouched (no admission, no queue); an admitted request runs with the
counter incremented and the `finally` block restores it exactly once,
whatever the body's outcome; and the counter never exceeds the ceiling of 3
across any interleaving of admissions, rejections and completions. -/
theorem remoteUpload_backpressure :
    (∀ (a : Nat) (o : RemoteOutcome), MAX_CONCURRENT_DOWNLOADS ≤ a →
      remoteUploadCounter a o = (429, a, a)) ∧
    (∀ (a : Nat) (o : RemoteOutcome), a < MAX_CONCURRENT_DOWNLOADS →
      remoteUploadCounter a o = (remoteOutcomeStatus o, a + 1, a)) ∧
    (∀ n, DlReachable n → n ≤ MAX_CONCURRENT_DOWNLOADS) := by
  refine ⟨?_, ?_, ?_⟩
  · intro a o h
    unfold remoteUploadCounter
    rw [if_pos h]
  · intro a o h
    unfold remoteUploadCounter
    rw [if_neg (Nat.not_le_of_lt h)]
    simp
  · intro n h
    unfold DlReachable at h
    induction h with
    | refl => decide
    | tail _ hstep ih =>
      cases hstep with
      | accept m hm =>
        unfold MAX_CONCURRENT_DOWNLOADS at hm ⊢
        omega
      | reject m _ => exact ih
      | complete m => omega

/-- C6 (witness): the 4th concurrent request is rejected with `429` and the
counter stays at 3; an admitted request with a timeout outcome nets the
counter back to its pre-admission value. -/
theorem remoteUpload_backpressure_witness :
    remoteUploadCounter 3 RemoteOutcome.success = (429, 3, 3) ∧
    remoteUploadCounter 2 RemoteOutcome.timeout = (504, 3, 2) :=
  ⟨remoteUpload_backpressure.1 3 RemoteOutcome.success (by decide),
   remoteUpload_backpressure.2.1 2 RemoteOutcome.timeout (by decide)⟩

/-! ## C9 — termination of backward pagination -/

theorem fetchAllLoop_bound (pages : Nat → Nat → List NEvent) :
    ∀ (n pc : Nat) (acc : List NEvent) (u : Nat), 100 - pc ≤ n →
      (fetchAllLoop pages acc u pc).2 ≤ 100 - pc := by
  intro n
  induction n with
  | zero =>
    intro pc acc u hn
    have hpc : ¬ pc < 100 := by omega
    rw [fetchAllLoop]
    rw [dif_neg hpc]
    exact Nat.zero_le _
  | succ n ih =>
    intro pc acc u hn
    by_cases hpc : pc < 100
    · rw [fetchAllLoop, dif_pos hpc]
      by_cases hev : (pages pc u).isEmpty
      · rw [if_pos hev]
        omega
      · rw [if_neg hev]
        by_cases hmin : minCreatedAt (pages pc u) = u
        · rw [if_pos hmin]
          omega
        · rw [if_neg hmin]
          have hrec := ih (pc + 1) (mergeEvents acc (pages pc u))
            (minCreatedAt (pages pc u) - 1) (by omega)
          dsimp only
          omega
    · rw [fetchAllLoop, dif_neg hpc]
      exact Nat.zero_le _

/-- C9: the backward-pagination loop terminates for every sequence of relay
responses: a page with no events stops it after that fetch, a page whose
minimum timestamp equals the cursor (no progress) stops it after that fetch,
and in every case `fetchAllUserEvents` / `fetchAllFollowingEvents` perform
at most 100 page fetches. -/
theorem fetchAll_pagination :
    (∀ (pages : Nat → Nat → List NEvent) (nowSec : Nat),
      (fetchAllUserEvents pages nowSec).2 ≤ 100 ∧
      (fetchAllFollowingEvents pages nowSec).2 ≤ 100) ∧
    (∀ (pages : Nat → Nat → List NEvent) (acc : List NEvent) (u pc : Nat),
      pc < 100 → pages pc u = [] → fetchAllLoop pages acc u pc = (acc, 1)) ∧
    (∀ (pages : Nat → Nat → List NEvent) (acc : List NEvent) (u pc : Nat),
      pc < 100 → pages pc u ≠ [] → minCreatedAt (pages pc u) = u →
      fetchAllLoop pages acc u pc = (mergeEvents acc (pages pc u), 1)) := by
  refine ⟨?_, ?_, ?_⟩
  · intro pages nowSec
    have h := fetchAllLoop_bound pages 100 0 [] nowSec (by omega)
    exact ⟨h, h⟩
  · intro pages acc u pc hpc hempty
    rw [fetchAllLoop, dif_pos hpc, if_pos (by rw [hempty]; rfl)]
  · intro pages acc u pc hpc hne hmin
    rw [fetchAllLoop, dif_pos hpc,
      if_neg (by simp [List.isEmpty_iff, hne]),
      if_pos hmin]

/-- C9 (witness): a relay that always answers an empty page stops the loop
after a single fetch; a relay that always makes one-second progress is cut
off at the 100-page ceiling. -/
theorem fetchAll_pagination_witness :
    (fetchAllUserEvents (fun _ _ => []) 500).2 ≤ 100 ∧
    fetchAllLoop (fun _ _ => []) [] 500 0 = ([], 1) :=
  ⟨(fetchAll_pagination.1 (fun _ _ => []) 500).1,
   fetchAll_pagination.2.1 (fun _ _ => []) [] 500 0 (by omega) rfl⟩

/-! ## C7 — canonical, duplicate-free extraction -/

theorem cleanCid_length (raw x : String) (h : cleanCid raw = some x) :
    46 ≤ x.length ∧ x.length ≤ 120 := by
  unfold cleanCid at h
  by_cases h0 : raw = ""
  · rw [if_pos h0] at h
    cases h
  · rw [if_neg h0] at h
    dsimp only at h
    split at h
    · cases h
    · rename_i hlen
      have hx := Option.some.inj h
      have hxlen : x.length = ((raw.toList.takeWhile
          (fun c => c ≠ '/' ∧ c ≠ '?' ∧ c ≠ '#')).filter Char.isAlphanum).length := by
        rw [← hx]
        rfl
      push_neg at hlen
      omega

theorem addFound_sub (found : List String) (raw : String) (P : String → Prop)
    (hf : ∀ x ∈ found, P x) (hclean : ∀ r c, cleanCid r = some c → P c) :
    ∀ x ∈ addFound found raw, P x := by
  unfold addFound
  cases hc : cleanCid raw with
  | none => exact hf
  | some c =>
    show ∀ x ∈ (if c ∈ found then found else found ++ [c]), P x
    by_cases hmem : c ∈ found
    · rw [if_pos hmem]
      exact hf
    · rw [if_neg hmem]
      intro x hx
      rcases List.mem_append.mp hx with h | h
      · exact hf x h
      · have hxc : x = c := by simpa using h
        subst hxc
        exact hclean raw _ hc

theorem addFound_nodup (found : List String) (raw : String)
    (h : found.Nodup) : (addFound found raw).Nodup := by
  unfold addFound
  cases hc : cleanCid raw with
  | none => exact h
  | some c =>
    show (if c ∈ found then found else found ++ [c]).Nodup
    by_cases hmem : c ∈ found
    · rw [if_pos hmem]
      exact h
    · rw [if_neg hmem]
      simp [List.nodup_append, h, hmem]

theorem foldl_addFound_sub (P : String → Prop)
    (hclean : ∀ r c, cleanCid r = some c → P c) :
    ∀ (raws found : List String), (∀ x ∈ found, P x) →
      ∀ x ∈ raws.foldl addFound found, P x := by
  intro raws
  induction raws with
  | nil =>
    intro found hf x hx
    exact hf x hx
  | cons r rs ih =>
    intro found hf x hx
    exact ih (addFound found r) (addFound_sub found r P hf hclean) x hx

theorem foldl_addFound_nodup :
    ∀ (raws found : List String), found.Nodup → (raws.foldl addFound found).Nodup := by
  intro raws
  induction raws with
  | nil =>
    intro found hf
    exact hf
  | cons r rs ih =>
    intro found hf
    exact ih (addFound found r) (addFound_nodup found r hf)

/-- C7: for every input text the extraction result is duplicate-free and
every element is the canonicalization (`cleanCid`: first path segment up to
`/?#`, non-alphanumerics stripped) of some raw match, with length between 46
and 120; and on the spec's scenario text the result is exactly the
one-element list with the embedded base58 CID. -/
theorem extractCids_canonical :
    (∀ text : String, (extractCidsFromContent text).Nodup ∧
      ∀ x ∈ extractCidsFromContent text,
        (∃ raw, cleanCid raw = some x) ∧ 46 ≤ x.length ∧ x.length ≤ 120) ∧
    extractCidsFromContent scenarioText = [scenarioCid] := by
  constructor
  · intro text
    unfold extractCidsFromContent
    constructor
    · exact foldl_addFound_nodup _ _
        (foldl_addFound_nodup _ _ (foldl_addFound_nodup _ _ List.nodup_nil))
    · have hclean : ∀ r c, cleanCid r = some c →
          (∃ raw, cleanCid raw = some c) ∧ 46 ≤ c.length ∧ c.length ≤ 120 :=
        fun r c h => ⟨⟨r, h⟩, cleanCid_length r c h⟩
      refine foldl_addFound_sub _ hclean _ _ ?_
      refine foldl_addFound_sub _ hclean _ _ ?_
      refine foldl_addFound_sub _ hclean _ _ ?_
      intro x hx
      cases hx
  · decide

/-! ## C8 — gateway fallback always yields a usable URL -/

/-- C8: when every candidate probe fails, `refreshGateways` selects the
fixed default `https://dweb.link` (and records it as the selection);
`getSelectedGateway` returns the last selection when one exists and
otherwise the first configured gateway or the fixed default; and
`getGatewayUrl` still builds a usable URL — the selected base joined with
`/ipfs/<cid>`, plus the optional encoded `?filename=` query parameter. -/
theorem gatewayFallback_usable (probe : String → Bool) (rand : Nat → Nat)
    (file : Option (List String)) (nowMs : Nat) (st : GwState) (cid : String)
    (hall : ∀ g, probe g = false)
    (httl : nowMs - st.lastTestAt > REFRESH_TTL_MS) :
    (refreshGateways probe rand file nowMs st).2 = "https://dweb.link" ∧
    (refreshGateways probe rand file nowMs st).1.selectedGateway =
      "https://dweb.link" ∧
    (st.selectedGateway ≠ "" →
      (getSelectedGateway file st).1 = st.selectedGateway) ∧
    (st.selectedGateway = "" →
      (getSelectedGateway file st).1 = FALLBACK_GATEWAY ∨
      (loadGateways file st).1.head? = some (getSelectedGateway file st).1) ∧
    (getGatewayUrl probe rand file nowMs st cid none).2 =
      "https://dweb.link/ipfs/" ++ cid ∧
    ∀ fn, (getGatewayUrl probe rand file nowMs st cid (some fn)).2 =
      "https://dweb.link/ipfs/" ++ cid ++ "?filename=" ++ encodeURIComponent fn := by
  have hfind : ∀ (l : List String), l.find? probe = none := by
    intro l
    rw [List.find?_eq_none]
    intro x _
    rw [hall x]
    exact Bool.false_ne_true
  have hrefresh : refreshGateways probe rand file nowMs st =
      ({ (loadGateways file st).2 with
          selectedGateway := FALLBACK_GATEWAY
          lastTestAt := nowMs }, FALLBACK_GATEWAY) := by
    unfold refreshGateways
    dsimp only
    rw [hfind]
    rfl
  have hneF : (FALLBACK_GATEWAY : String) ≠ "" := by decide
  have hafter : ∀ fnopt : Option String,
      (getGatewayUrl probe rand file nowMs st cid fnopt).2 =
        (match fnopt with
         | some fn => "https://dweb.link/ipfs/" ++ cid ++ "?filename=" ++
             encodeURIComponent fn
         | none => "https://dweb.link/ipfs/" ++ cid) := by
    intro fnopt
    unfold getGatewayUrl
    rw [if_pos httl, hrefresh]
    dsimp only
    unfold getSelectedGateway
    rw [if_pos hneF]
    dsimp only
    rw [show stripTrailingSlash FALLBACK_GATEWAY ++ "/ipfs/" =
      "https://dweb.link/ipfs/" from by decide]
  refine ⟨?_, ?_, ?_, ?_, ?_, ?_⟩
  · rw [hrefresh]
    rfl
  · rw [hrefresh]
    rfl
  · intro hne
    unfold getSelectedGateway
    rw [if_pos hne]
  · intro heq
    unfold getSelectedGateway
    rw [if_neg (by simp [heq])]
    dsimp only
    generalize (loadGateways file st).1 = xs
    cases xs with
    | nil =>
      left
      rfl
    | cons g rest =>
      rw [List.head?_cons]
      by_cases hg : g = ""
      · left
        dsimp only
        rw [if_pos hg]
      · right
        dsimp only
        rw [if_neg hg]
  · exact hafter none
  · intro fn
    exact hafter (some fn)

/-- C8 (witness): with every probe failing and the refresh TTL lapsed,
refresh on the initial state selects the fixed default and the built URL is
the default joined with the content path and encoded filename. -/
theorem gatewayFallback_usable_witness :
    (refreshGateways (fun _ => false) idRand
      (some ["https://gw1.example/", "https://gw2.example"]) 1000000
      GwState.init).2 = "https://dweb.link" ∧
    ∀ fn, (getGatewayUrl (fun _ => false) idRand
      (some ["https://gw1.example/", "https://gw2.example"]) 1000000
      GwState.init "QmX" (some fn)).2 =
        "https://dweb.link/ipfs/" ++ "QmX" ++ "?filename=" ++
          encodeURIComponent fn :=
  ⟨(gatewayFallback_usable (fun _ => false) idRand
      (some ["https://gw1.example/", "https://gw2.example"]) 1000000
      GwState.init "QmX" (fun _ => rfl) (by decide)).1,
   (gatewayFallback_usable (fun _ => false) idRand
      (some ["https://gw1.example/", "https://gw2.example"]) 1000000
      GwState.init "QmX" (fun _ => rfl) (by decide)).2.2.2.2.2⟩

/-! ## C5 — stale-sweep reclamation -/

/-- C5: for a store whose in-progress keys are unique (as `Map` keys are),
running `cleanupStaleInProgress` removes the marker of every entry whose
last activity is older than the 10-minute threshold, upon which the
reference (of the right class and not already `'pinned'`) is again in the
candidate pool and — whenever the limit covers the pool — in the very list
returned by the next `getPendingCidsByType` call; entries with recent
activity are left in place. -/
theorem staleSweep_reclaims (db : DB) (nowMs : Nat) (cid : String)
    (info : ProgInfo) (p : Pin) (t : String) (limit : Nat) (rand : Nat → Nat)
    (hkeys : (db.inProgress.map Prod.fst).Nodup)
    (hmem : (cid, info) ∈ db.inProgress)
    (hstale : nowMs - info.lastProgress > staleThresholdMs)
    (hp : p ∈ db.pins) (hpcid : p.cid = cid) (hpt : p.ptype = t)
    (hps : p.status ≠ "pinned")
    (hlimit : (pendingPool (cleanupStaleInProgress db nowMs) t).length ≤ limit) :
    isInProgress (cleanupStaleInProgress db nowMs) cid = false ∧
    p ∈ getPendingCidsByType (cleanupStaleInProgress db nowMs) t limit rand ∧
    (∀ e ∈ db.inProgress, ¬ nowMs - e.2.lastProgress > staleThresholdMs →
      e ∈ (cleanupStaleInProgress db nowMs).inProgress) := by
  have hgone : isInProgress (cleanupStaleInProgress db nowMs) cid = false := by
    unfold isInProgress cleanupStaleInProgress
    rw [List.any_eq_false]
    intro e he hc
    have he2 := List.mem_filter.mp he
    have hkeep : ¬ nowMs - e.2.lastProgress > staleThresholdMs :=
      of_decide_eq_true he2.2
    have hecid : e.1 = cid := of_decide_eq_true hc
    have heq : e = (cid, info) :=
      List.inj_on_of_nodup_map hkeys he2.1 hmem hecid
    rw [heq] at hkeep
    exact hkeep hstale
  refine ⟨hgone, ?_, ?_⟩
  · have hpool : p ∈ pendingPool (cleanupStaleInProgress db nowMs) t := by
      apply List.mem_filter.mpr
      refine ⟨hp, ?_⟩
      apply decide_eq_true
      refine ⟨hpt, hps, ?_⟩
      intro hany
      rw [hpcid] at hany
      unfold isInProgress at hgone
      rw [hgone] at hany
      cases hany
    have hshuf : p ∈ fisherYates rand (pendingPool (cleanupStaleInProgress db nowMs) t) :=
      (fisherYates_perm rand _).mem_iff.mpr hpool
    unfold getPendingCidsByType
    rw [List.take_of_length_le]
    · exact hshuf
    · rw [(fisherYates_perm rand _).length_eq]
      exact hlimit
  · intro e he hkeep
    unfold cleanupStaleInProgress
    apply List.mem_filter.mpr
    exact ⟨he, decide_eq_true hkeep⟩

/-- C5 (witness): the stale entry for `c1` in `dbC5` is removed at
`nowMs = 700000` and the pending pin is returned by the next selection. -/
theorem staleSweep_reclaims_witness :
    isInProgress (cleanupStaleInProgress dbC5 700000) "c1" = false ∧
    pinC1 ∈ getPendingCidsByType (cleanupStaleInProgress dbC5 700000) "self" 1 idRand ∧
    (∀ e ∈ dbC5.inProgress, ¬ 700000 - e.2.lastProgress > staleThresholdMs →
      e ∈ (cleanupStaleInProgress dbC5 700000).inProgress) :=
  staleSweep_reclaims dbC5 700000 "c1" infoC5 pinC1 "self" 1 idRand
    (by decide) (by decide) (by decide) (by decide) (by decide) (by decide)
    (by decide) (by decide)

/-! ## C1 — `pending → terminal` passes through `in_progress`: refuted by the
already-replicated shortcut -/

/-- C1 (counterexample): the pinner pass run on a store with one pending
self reference, against a daemon that reports the CID already pinned,
commits `pending → pinned` directly (part_006 lines 145–153) while the
reference is never marked in progress at any instant of the trace — so the
claimed discipline fails. -/
theorem pendingDiscipline_counterexample :
    ¬ pendingToInProgressDiscipline
      (passWithCompletions oracleC1 idRand idRand 1000 2000 dbC1) := by
  intro h
  have h2 := h 1 "c1" (by decide) (by decide)
    ⟨"pinned", by decide, by decide⟩
  obtain ⟨j, hj, hmark⟩ := h2
  interval_cases j
  · exact absurd hmark (by decide)
  · exact absurd hmark (by decide)

/-! ## C3 — per-class in-progress ceilings: refuted by overlapping passes -/

/-- C3 (counterexample): the in-progress ceilings do not hold at every
instant.  `setInterval` can start a second pinner pass while the first is
suspended at `await isPinned`; both passes then pass their slot checks
against a store with no marks yet, and together mark three self references —
exceeding `MAX_CONCURRENT_SELF = 2`.  The exhibited trace switches
coroutines only at `await` boundaries. -/
theorem concurrencyCeiling_counterexample : ¬ concurrencyCeilingClaim := by
  intro h
  have hreach : SysReachable initSys sysC3 := by
    unfold sysC3
    refine Relation.ReflTransGen.tail
      (Relation.ReflTransGen.tail
        (Relation.ReflTransGen.tail
          (Relation.ReflTransGen.tail
            (Relation.ReflTransGen.tail
              (Relation.ReflTransGen.tail Relation.ReflTransGen.refl
                (SysStep.discovery initSys recsC3 (by decide)))
              (SysStep.passStart _ idRand idRand))
            (SysStep.passStart _ randSwap20 idRand))
          (SysStep.resumeSelfPinned _ 0 false idRand (by decide)))
        (SysStep.resumeSelfPinned _ 0 false idRand (by decide)))
      (SysStep.resumeSelfPinned _ 1 false idRand (by decide))
  have hb := (h sysC3 hreach).1
  revert hb
  decide

/-! ## Store-operation lemmas used by the amended C1 and C3 theorems -/

theorem updatePinSize_inProgress (db : DB) (cid : String) (sz : Nat)
    (st : String) (n : Nat) :
    (updatePinSize db cid sz st n).1.inProgress = db.inProgress := by
  unfold updatePinSize
  split <;> rfl

theorem isInProgress_updatePinSize (db : DB) (cid : String) (sz : Nat)
    (st : String) (n : Nat) (cid2 : String) :
    isInProgress (updatePinSize db cid sz st n).1 cid2 = isInProgress db cid2 := by
  unfold isInProgress
  rw [updatePinSize_inProgress]

theorem listMapSet_any_key (m : List (String × ProgInfo)) (k : String)
    (v : ProgInfo) : (listMapSet m k v).any (fun e => e.1 = k) = true := by
  induction m with
  | nil => simp [listMapSet]
  | cons e rest ih =>
    unfold listMapSet
    by_cases he : e.1 = k
    · rw [if_pos he]
      simp
    · rw [if_neg he]
      simp [ih]

theorem listMapSet_any_mono (m : List (String × ProgInfo)) (k : String)
    (v : ProgInfo) (k2 : String)
    (h : m.any (fun e => e.1 = k2) = true) :
    (listMapSet m k v).any (fun e => e.1 = k2) = true := by
  induction m with
  | nil => simp at h
  | cons e rest ih =>
    unfold listMapSet
    by_cases he : e.1 = k
    · rw [if_pos he]
      by_cases he2 : e.1 = k2
      · have hk : k = k2 := he ▸ he2
        simp [hk]
      · have hrest : rest.any (fun e => e.1 = k2) = true := by
          simpa [List.any_cons, he2] using h
        simp [hrest]
    · rw [if_neg he]
      by_cases he2 : e.1 = k2
      · simp [he2]
      · have hrest : rest.any (fun e => e.1 = k2) = true := by
          simpa [List.any_cons, he2] using h
        simp [ih hrest]

theorem isInProgress_markInProgress_self (db : DB) (cid t : String) (n : Nat) :
    isInProgress (markInProgress db cid t n) cid = true := by
  unfold isInProgress markInProgress
  exact listMapSet_any_key _ _ _

theorem isInProgress_markInProgress_mono (db : DB) (cid t : String) (n : Nat)
    (cid2 : String) (h : isInProgress db cid2 = true) :
    isInProgress (markInProgress db cid t n) cid2 = true := by
  unfold isInProgress markInProgress
  unfold isInProgress at h
  exact listMapSet_any_mono _ _ _ _ h

theorem isInProgress_clearInProgress_ne (db : DB) (cid cid2 : String)
    (h : cid2 ≠ cid) :
    isInProgress (clearInProgress db cid) cid2 = isInProgress db cid2 := by
  unfold isInProgress clearInProgress
  dsimp only
  by_cases hr : db.inProgress.any (fun e => e.1 = cid2) = true
  · rw [hr]
    rw [List.any_eq_true] at hr ⊢
    obtain ⟨e, he, hpred⟩ := hr
    refine ⟨e, List.mem_filter.mpr ⟨he, ?_⟩, hpred⟩
    apply decide_eq_true
    have : e.1 = cid2 := of_decide_eq_true hpred
    rw [this]
    exact h
  · rw [Bool.eq_false_iff.mpr hr]
    apply Bool.eq_false_iff.mpr
    intro hc
    apply hr
    rw [List.any_eq_true] at hc ⊢
    obtain ⟨e, he, hpred⟩ := hc
    exact ⟨e, List.mem_of_mem_filter he, hpred⟩

theorem statusOf_markInProgress (db : DB) (cid t : String) (n : Nat)
    (cid2 : String) :
    statusOf (markInProgress db cid t n) cid2 = statusOf db cid2 := rfl

theorem statusOf_clearInProgress (db : DB) (cid cid2 : String) :
    statusOf (clearInProgress db cid) cid2 = statusOf db cid2 := rfl

theorem statusOf_cleanupStaleInProgress (db : DB) (n : Nat) (cid : String) :
    statusOf (cleanupStaleInProgress db n) cid = statusOf db cid := rfl

theorem statusOf_none_of_not_has (db : DB) (cid : String)
    (h : pinsHas db cid = false) : statusOf db cid = none := by
  unfold statusOf getPinByCid
  have : db.pins.find? (fun p => p.cid = cid) = none := by
    rw [List.find?_eq_none]
    intro p hp hc
    have : db.pins.any (fun p => p.cid = cid) = true := List.any_eq_true.mpr ⟨p, hp, hc⟩
    rw [pinsHas] at h
    rw [h] at this
    cases this
  rw [this]
  rfl

theorem find_status_map_ne (cid cid2 : String) (sz : Nat) (st : String)
    (n : Nat) (hne : cid2 ≠ cid) :
    ∀ ps : List Pin,
      ((ps.map (fun p : Pin =>
        if p.cid = cid then
          { p with size := sz, status := st, updated_at := n }
        else p)).find? (fun p => p.cid = cid2)).map (fun p => p.status) =
      (ps.find? (fun p => p.cid = cid2)).map (fun p => p.status) := by
  intro ps
  induction ps with
  | nil => rfl
  | cons q qs ih =>
    rw [List.map_cons]
    by_cases hq2 : q.cid = cid2
    · have hq : ¬ q.cid = cid := by
        rw [hq2]
        exact hne
      rw [if_neg hq]
      rw [@List.find?_cons_of_pos _ (fun p : Pin => decide (p.cid = cid2)) q _
          (decide_eq_true hq2),
        @List.find?_cons_of_pos _ (fun p : Pin => decide (p.cid = cid2)) q qs
          (decide_eq_true hq2)]
    · have hqm : ¬ ((if q.cid = cid then
          { q with size := sz, status := st, updated_at := n }
        else q).cid = cid2) := by
        split <;> exact hq2
      rw [@List.find?_cons_of_neg _ (fun p : Pin => decide (p.cid = cid2)) _ _
          (by simpa using hqm),
        @List.find?_cons_of_neg _ (fun p : Pin => decide (p.cid = cid2)) q qs
          (by simpa using hq2)]
      exact ih

theorem statusOf_updatePinSize_ne (db : DB) (cid : String) (sz : Nat)
    (st : String) (n : Nat) (cid2 : String) (hne : cid2 ≠ cid) :
    statusOf (updatePinSize db cid sz st n).1 cid2 = statusOf db cid2 := by
  unfold updatePinSize
  by_cases hhas : pinsHas db cid = true
  · rw [if_pos hhas]
    unfold statusOf getPinByCid
    exact find_status_map_ne cid cid2 sz st n hne db.pins
  · rw [if_neg hhas]

theorem find_status_map_self (cid : String) (sz : Nat) (st : String)
    (n : Nat) :
    ∀ ps : List Pin, ps.any (fun p => p.cid = cid) = true →
      ((ps.map (fun p : Pin =>
        if p.cid = cid then
          { p with size := sz, status := st, updated_at := n }
        else p)).find? (fun p => p.cid = cid)).map (fun p => p.status) =
      some st := by
  intro ps
  induction ps with
  | nil => intro h; simp at h
  | cons q qs ih =>
    intro h
    rw [List.map_cons]
    by_cases hq : q.cid = cid
    · rw [if_pos hq]
      rw [@List.find?_cons_of_pos _ (fun p : Pin => decide (p.cid = cid)) _ _
          (by simpa using hq)]
      rfl
    · rw [if_neg hq]
      rw [@List.find?_cons_of_neg _ (fun p : Pin => decide (p.cid = cid)) q _
          (by simpa using hq)]
      have hqs : qs.any (fun p => p.cid = cid) = true := by
        simpa [List.any_cons, hq] using h
      exact ih hqs

theorem statusOf_updatePinSize_self (db : DB) (cid : String) (sz : Nat)
    (st : String) (n : Nat) (hhas : pinsHas db cid = true) :
    statusOf (updatePinSize db cid sz st n).1 cid = some st := by
  unfold updatePinSize
  rw [if_pos hhas]
  unfold statusOf getPinByCid
  exact find_status_map_self cid sz st n db.pins hhas

theorem statusOf_updatePinSize_not_pending (db : DB) (cid : String) (sz : Nat)
    (st : String) (n : Nat) (hst : st ≠ "pending") :
    statusOf (updatePinSize db cid sz st n).1 cid ≠ some "pending" := by
  by_cases hhas : pinsHas db cid = true
  · rw [statusOf_updatePinSize_self db cid sz st n hhas]
    intro hc
    exact hst (Option.some.inj hc)
  · have he : (updatePinSize db cid sz st n).1 = db := by
      unfold updatePinSize
      rw [if_neg hhas]
    rw [he, statusOf_none_of_not_has db cid (Bool.eq_false_iff.mpr hhas)]
    intro hc
    cases hc

/-! ## The transition discipline of one pass (amended C1) -/

theorem flipOk_of_pins_eq (o : SchedOracle) (db db2 : DB)
    (h : db2.pins = db.pins) : FlipOk o db db2 := by
  intro cid hpend hterm
  exfalso
  obtain ⟨s, hs, hst⟩ := hterm
  have he : statusOf db2 cid = statusOf db cid := by
    unfold statusOf getPinByCid
    rw [h]
  rw [he, hpend] at hs
  have hsp : s = "pending" := (Option.some.inj hs).symm
  rw [hsp] at hst
  exact absurd hst (by decide)

theorem flipOk_shortcut (o : SchedOracle) (db : DB) (cidU : String) (sz : Nat)
    (st : String) (n : Nat) (hone : o.alreadyPinned cidU = true) :
    FlipOk o db (updatePinSize db cidU sz st n).1 := by
  intro cid hpend hterm
  by_cases hc : cid = cidU
  · right
    rw [hc]
    exact hone
  · exfalso
    obtain ⟨s, hs, hst⟩ := hterm
    rw [statusOf_updatePinSize_ne db cidU sz st n cid hc, hpend] at hs
    have hsp : s = "pending" := (Option.some.inj hs).symm
    rw [hsp] at hst
    exact absurd hst (by decide)

theorem flipOk_processSelfCand (o : SchedOracle) (nowMs : Nat) (db : DB)
    (c : Pin) : FlipOk o db (processSelfCand o nowMs db c).1 := by
  unfold processSelfCand
  by_cases h1 : isInProgress db c.cid = true
  · rw [if_pos h1]
    exact flipOk_of_pins_eq o db db rfl
  · rw [if_neg h1]
    by_cases h2 : o.alreadyPinned c.cid = true
    · rw [if_pos h2]
      exact flipOk_shortcut o db c.cid _ _ _ h2
    · rw [if_neg h2]
      exact flipOk_of_pins_eq o db _ rfl

theorem flipOk_processFriendCand (o : SchedOracle) (nowMs : Nat) (db : DB)
    (c : Pin) : FlipOk o db (processFriendCand o nowMs db c).1 := by
  unfold processFriendCand
  by_cases h1 : isInProgress db c.cid = true
  · rw [if_pos h1]
    exact flipOk_of_pins_eq o db db rfl
  · rw [if_neg h1]
    by_cases h2 : o.alreadyPinned c.cid = true
    · rw [if_pos h2]
      exact flipOk_shortcut o db c.cid _ _ _ h2
    · rw [if_neg h2]
      exact flipOk_of_pins_eq o db _ rfl

theorem statusOf_completeTask_ne (o : SchedOracle) (now : Nat) (db : DB)
    (t : Task) (cid : String) (hc : cid ≠ t.cid) :
    statusOf (completeTask o now db t) cid = statusOf db cid := by
  unfold completeTask
  split
  · split
    · rw [statusOf_clearInProgress, statusOf_updatePinSize_ne _ _ _ _ _ _ hc]
    · rw [statusOf_clearInProgress, statusOf_updatePinSize_ne _ _ _ _ _ _ hc]
  · split
    · rw [statusOf_clearInProgress, statusOf_updatePinSize_ne _ _ _ _ _ _ hc]
    · rw [statusOf_clearInProgress, statusOf_updatePinSize_ne _ _ _ _ _ _ hc]

theorem statusOf_completeTask_self (o : SchedOracle) (now : Nat) (db : DB)
    (t : Task) :
    statusOf (completeTask o now db t) t.cid ≠ some "pending" := by
  unfold completeTask
  split
  · split
    · rw [statusOf_clearInProgress]
      exact statusOf_updatePinSize_not_pending _ _ _ _ _ (by decide)
    · rw [statusOf_clearInProgress]
      exact statusOf_updatePinSize_not_pending _ _ _ _ _ (by decide)
  · split
    · rw [statusOf_clearInProgress]
      exact statusOf_updatePinSize_not_pending _ _ _ _ _ (by decide)
    · rw [statusOf_clearInProgress]
      exact statusOf_updatePinSize_not_pending _ _ _ _ _ (by decide)

theorem flipOk_completeTask (o : SchedOracle) (now : Nat) (db : DB) (t : Task)
    (hok : TaskOk db t) : FlipOk o db (completeTask o now db t) := by
  intro cid hpend hterm
  by_cases hc : cid = t.cid
  · cases hok with
    | inl h =>
      left
      rw [hc]
      exact h
    | inr h =>
      exfalso
      rw [hc] at hpend
      exact h hpend
  · exfalso
    obtain ⟨s, hs, hst⟩ := hterm
    rw [statusOf_completeTask_ne o now db t cid hc, hpend] at hs
    have hsp : s = "pending" := (Option.some.inj hs).symm
    rw [hsp] at hst
    exact absurd hst (by decide)

theorem taskOk_completeTask (o : SchedOracle) (now : Nat) (db : DB)
    (t t2 : Task) (h2 : TaskOk db t2) :
    TaskOk (completeTask o now db t) t2 := by
  by_cases hc : t2.cid = t.cid
  · right
    rw [hc]
    exact statusOf_completeTask_self o now db t
  · cases h2 with
    | inl h =>
      left
      unfold completeTask
      split
      · split
        · rw [isInProgress_clearInProgress_ne _ _ _ hc, isInProgress_updatePinSize]
          exact h
        · rw [isInProgress_clearInProgress_ne _ _ _ hc, isInProgress_updatePinSize]
          exact h
      · split
        · rw [isInProgress_clearInProgress_ne _ _ _ hc, isInProgress_updatePinSize]
          exact h
        · rw [isInProgress_clearInProgress_ne _ _ _ hc, isInProgress_updatePinSize]
          exact h
    | inr h =>
      right
      rw [statusOf_completeTask_ne o now db t t2.cid hc]
      exact h

theorem completeTasks_chain (o : SchedOracle) (now : Nat) :
    ∀ (ts : List Task) (db : DB), (∀ t ∈ ts, TaskOk db t) →
      List.Chain (FlipOk o) db (completeTasks o now db ts).2 := by
  intro ts
  induction ts with
  | nil =>
    intro db _
    exact List.Chain.nil
  | cons t ts ih =>
    intro db hok
    show List.Chain (FlipOk o) db
      (completeTask o now db t :: (completeTasks o now (completeTask o now db t) ts).2)
    refine List.Chain.cons ?_ ?_
    · exact flipOk_completeTask o now db t (hok t (List.mem_cons_self t ts))
    · exact ih (completeTask o now db t)
        (fun t2 ht2 => taskOk_completeTask o now db t t2
          (hok t2 (List.mem_cons_of_mem t ht2)))

theorem processCands_chain (step : DB → Pin → DB × Option Task)
    {R : DB → DB → Prop} (hstep : ∀ db c, R db (step db c).1) :
    ∀ (cs : List Pin) (db : DB),
      List.Chain R db (processCands step db cs).2.2 := by
  intro cs
  induction cs with
  | nil =>
    intro db
    exact List.Chain.nil
  | cons c cs ih =>
    intro db
    show List.Chain R db ((step db c).1 :: (processCands step (step db c).1 cs).2.2)
    exact List.Chain.cons (hstep db c) (ih (step db c).1)

theorem processCands_getLast (step : DB → Pin → DB × Option Task) :
    ∀ (cs : List Pin) (db : DB),
      ((db :: (processCands step db cs).2.2).getLast (List.cons_ne_nil _ _)) =
        (processCands step db cs).1 := by
  intro cs
  induction cs with
  | nil =>
    intro db
    rfl
  | cons c cs ih =>
    intro db
    show ((db :: ((step db c).1 :: (processCands step (step db c).1 cs).2.2)).getLast
      (List.cons_ne_nil _ _)) = (processCands step (step db c).1 cs).1
    rw [List.getLast_cons (List.cons_ne_nil _ _)]
    exact ih (step db c).1

theorem chain_append_last {R : DB → DB → Prop} :
    ∀ (l1 : List DB) (a : DB) (l2 : List DB), List.Chain R a l1 →
      List.Chain R ((a :: l1).getLast (List.cons_ne_nil _ _)) l2 →
      List.Chain R a (l1 ++ l2) := by
  intro l1
  induction l1 with
  | nil =>
    intro a l2 _ h2
    exact h2
  | cons b l1 ih =>
    intro a l2 h1 h2
    rw [List.chain_cons] at h1
    rw [List.cons_append, List.chain_cons]
    refine ⟨h1.1, ih b l2 h1.2 ?_⟩
    rw [List.getLast_cons (List.cons_ne_nil _ _)] at h2
    exact h2

theorem processCands_marked (step : DB → Pin → DB × Option Task)
    (hkeep : ∀ db c cid, isInProgress db cid = true →
      isInProgress (step db c).1 cid = true)
    (hnew : ∀ db c t, (step db c).2 = some t →
      isInProgress (step db c).1 t.cid = true) :
    ∀ (cs : List Pin) (db : DB),
      (∀ cid, isInProgress db cid = true →
        isInProgress (processCands step db cs).1 cid = true) ∧
      (∀ t ∈ (processCands step db cs).2.1,
        isInProgress (processCands step db cs).1 t.cid = true) := by
  intro cs
  induction cs with
  | nil =>
    intro db
    exact ⟨fun cid h => h, fun t ht => absurd ht (List.not_mem_nil t)⟩
  | cons c cs ih =>
    intro db
    constructor
    · intro cid h
      exact (ih (step db c).1).1 cid (hkeep db c cid h)
    · intro t ht
      have hsplit : t ∈ (match (step db c).2 with
          | some t0 => t0 :: (processCands step (step db c).1 cs).2.1
          | none => (processCands step (step db c).1 cs).2.1) := ht
      cases hr : (step db c).2 with
      | none =>
        rw [hr] at hsplit
        exact (ih (step db c).1).2 t hsplit
      | some t0 =>
        rw [hr] at hsplit
        cases List.mem_cons.mp hsplit with
        | inl he =>
          rw [he]
          exact (ih (step db c).1).1 t0.cid (hnew db c t0 hr)
        | inr hm =>
          exact (ih (step db c).1).2 t hm

theorem selfCand_keep (o : SchedOracle) (nowMs : Nat) :
    ∀ (db : DB) (c : Pin) (cid : String), isInProgress db cid = true →
      isInProgress (processSelfCand o nowMs db c).1 cid = true := by
  intro db c cid h
  unfold processSelfCand
  by_cases h1 : isInProgress db c.cid = true
  · rw [if_pos h1]
    exact h
  · rw [if_neg h1]
    by_cases h2 : o.alreadyPinned c.cid = true
    · rw [if_pos h2]
      rw [isInProgress_updatePinSize]
      exact h
    · rw [if_neg h2]
      exact isInProgress_markInProgress_mono db c.cid "self" nowMs cid h

theorem selfCand_new (o : SchedOracle) (nowMs : Nat) :
    ∀ (db : DB) (c : Pin) (t : Task), (processSelfCand o nowMs db c).2 = some t →
      isInProgress (processSelfCand o nowMs db c).1 t.cid = true := by
  intro db c t ht
  unfold processSelfCand at ht ⊢
  by_cases h1 : isInProgress db c.cid = true
  · rw [if_pos h1] at ht
    cases ht
  · rw [if_neg h1] at ht ⊢
    by_cases h2 : o.alreadyPinned c.cid = true
    · rw [if_pos h2] at ht
      cases ht
    · rw [if_neg h2] at ht ⊢
      have he : t = { cid := c.cid, ttype := "self" } := (Option.some.inj ht).symm
      rw [he]
      exact isInProgress_markInProgress_self db c.cid "self" nowMs

theorem friendCand_keep (o : SchedOracle) (nowMs : Nat) :
    ∀ (db : DB) (c : Pin) (cid : String), isInProgress db cid = true →
      isInProgress (processFriendCand o nowMs db c).1 cid = true := by
  intro db c cid h
  unfold processFriendCand
  by_cases h1 : isInProgress db c.cid = true
  · rw [if_pos h1]
    exact h
  · rw [if_neg h1]
    by_cases h2 : o.alreadyPinned c.cid = true
    · rw [if_pos h2]
      rw [isInProgress_updatePinSize]
      exact h
    · rw [if_neg h2]
      exact isInProgress_markInProgress_mono db c.cid "friend" nowMs cid h

theorem friendCand_new (o : SchedOracle) (nowMs : Nat) :
    ∀ (db : DB) (c : Pin) (t : Task),
      (processFriendCand o nowMs db c).2 = some t →
      isInProgress (processFriendCand o nowMs db c).1 t.cid = true := by
  intro db c t ht
  unfold processFriendCand at ht ⊢
  by_cases h1 : isInProgress db c.cid = true
  · rw [if_pos h1] at ht
    cases ht
  · rw [if_neg h1] at ht ⊢
    by_cases h2 : o.alreadyPinned c.cid = true
    · rw [if_pos h2] at ht
      cases ht
    · rw [if_neg h2] at ht ⊢
      have he : t = { cid := c.cid, ttype := "friend" } := (Option.some.inj ht).symm
      rw [he]
      exact isInProgress_markInProgress_self db c.cid "friend" nowMs

theorem schedTrace_chain (o : SchedOracle) (nowMs now2 : Nat) (db1 : DB)
    (cs1 cs2 : List Pin) :
    List.Chain (FlipOk o) db1
      ((processCands (processSelfCand o nowMs) db1 cs1).2.2 ++
        ((processCands (processFriendCand o nowMs)
            (processCands (processSelfCand o nowMs) db1 cs1).1 cs2).2.2 ++
          (completeTasks o now2
            (processCands (processFriendCand o nowMs)
              (processCands (processSelfCand o nowMs) db1 cs1).1 cs2).1
            ((processCands (processSelfCand o nowMs) db1 cs1).2.1 ++
              (processCands (processFriendCand o nowMs)
                (processCands (processSelfCand o nowMs) db1 cs1).1 cs2).2.1)).2)) := by
  have hmarkedS := processCands_marked (processSelfCand o nowMs)
    (selfCand_keep o nowMs) (selfCand_new o nowMs) cs1 db1
  have hmarkedF := processCands_marked (processFriendCand o nowMs)
    (friendCand_keep o nowMs) (friendCand_new o nowMs) cs2
    (processCands (processSelfCand o nowMs) db1 cs1).1
  have hall : ∀ t ∈ (processCands (processSelfCand o nowMs) db1 cs1).2.1 ++
      (processCands (processFriendCand o nowMs)
        (processCands (processSelfCand o nowMs) db1 cs1).1 cs2).2.1,
      isInProgress (processCands (processFriendCand o nowMs)
        (processCands (processSelfCand o nowMs) db1 cs1).1 cs2).1 t.cid = true := by
    intro t ht
    cases List.mem_append.mp ht with
    | inl h => exact hmarkedF.1 t.cid (hmarkedS.2 t h)
    | inr h => exact hmarkedF.2 t h
  apply chain_append_last
  · exact processCands_chain _ (flipOk_processSelfCand o nowMs) cs1 db1
  · rw [processCands_getLast]
    apply chain_append_last
    · exact processCands_chain _ (flipOk_processFriendCand o nowMs) cs2 _
    · rw [processCands_getLast]
      exact completeTasks_chain o now2 _ _ (fun t ht => Or.inl (hall t ht))

theorem chain_cons_append_append {α : Type} (R : α → α → Prop) (a b : α)
    (l1 l2 l3 : List α) (hab : R a b)
    (h : List.Chain R b (l1 ++ (l2 ++ l3))) :
    List.Chain' R ((a :: ((b :: l1) ++ l2)) ++ l3) := by
  have he : ((a :: ((b :: l1) ++ l2)) ++ l3) = a :: b :: (l1 ++ (l2 ++ l3)) := by
    simp
  rw [he]
  exact List.Chain.cons hab h

/-- C1 (amended): across every pair of adjacent observed store states of a
pinner pass and the completions of the tasks it fired, a reference whose
status commits from `'pending'` to a terminal status is marked in progress
at the state just before the commit — except through the already-replicated
shortcut, i.e. when the daemon's existence check answered `true` for that
CID, in which case the job commits the terminal status directly without ever
marking the reference in progress. -/
theorem pinnerPass_flip_discipline (o : SchedOracle) (randS randF : Nat → Nat)
    (nowMs nowMs2 : Nat) (db0 : DB) :
    List.Chain' (FlipOk o) (passWithCompletions o randS randF nowMs nowMs2 db0) := by
  unfold passWithCompletions pinnerPass
  dsimp only
  exact chain_cons_append_append (FlipOk o) db0 _ _ _ _
    (flipOk_of_pins_eq o db0 _ rfl) (schedTrace_chain o nowMs (nowMs2 / 1000) _ _ _)

theorem cleanup_count_le (db : DB) (nowMs : Nat) (t : String) :
    inProgressCountByType (cleanupStaleInProgress db nowMs) t ≤
      inProgressCountByType db t := by
  unfold inProgressCountByType cleanupStaleInProgress
  dsimp only
  exact List.Sublist.length_le (List.Sublist.filter _ (List.filter_sublist _))

theorem clear_count_le (db : DB) (cid : String) (t : String) :
    inProgressCountByType (clearInProgress db cid) t ≤
      inProgressCountByType db t := by
  unfold inProgressCountByType clearInProgress
  dsimp only
  exact List.Sublist.length_le (List.Sublist.filter _ (List.filter_sublist _))

theorem updatePinSize_count_eq (db : DB) (cid : String) (sz : Nat)
    (st : String) (n : Nat) (t : String) :
    inProgressCountByType (updatePinSize db cid sz st n).1 t =
      inProgressCountByType db t := by
  unfold inProgressCountByType
  rw [updatePinSize_inProgress]

theorem listMapSet_count_le (m : List (String × ProgInfo)) (k : String)
    (v : ProgInfo) (t : String) :
    ((listMapSet m k v).filter (fun e => e.2.ptype = t)).length ≤
      (m.filter (fun e => e.2.ptype = t)).length +
        (if v.ptype = t then 1 else 0) := by
  induction m with
  | nil =>
    by_cases hv : v.ptype = t
    · simp [listMapSet, hv]
    · simp [listMapSet, hv]
  | cons e rest ih =>
    unfold listMapSet
    by_cases hek : e.1 = k
    · rw [if_pos hek]
      by_cases hv : v.ptype = t <;> by_cases he : e.2.ptype = t <;>
        simp [List.filter_cons, hv, he] <;> omega
    · rw [if_neg hek]
      by_cases he : e.2.ptype = t <;>
        simp [List.filter_cons, he] <;> omega

theorem markInProgress_count_le (db : DB) (cid t t2 : String) (nowMs : Nat) :
    inProgressCountByType (markInProgress db cid t nowMs) t2 ≤
      inProgressCountByType db t2 + (if t = t2 then 1 else 0) := by
  unfold markInProgress inProgressCountByType
  dsimp only
  exact listMapSet_count_le db.inProgress cid _ t2

theorem markInProgress_count_same (db : DB) (cid t : String) (nowMs : Nat) :
    inProgressCountByType (markInProgress db cid t nowMs) t ≤
      inProgressCountByType db t + 1 := by
  have h := markInProgress_count_le db cid t t nowMs
  rw [if_pos rfl] at h
  exact h

theorem markInProgress_count_other (db : DB) (cid t t2 : String) (nowMs : Nat)
    (hne : t ≠ t2) :
    inProgressCountByType (markInProgress db cid t nowMs) t2 ≤
      inProgressCountByType db t2 := by
  have h := markInProgress_count_le db cid t t2 nowMs
  rw [if_neg hne] at h
  simpa using h

theorem selfStep_count (o : SchedOracle) (nowMs : Nat) (db : DB) (c : Pin) :
    inProgressCountByType (processSelfCand o nowMs db c).1 "self" ≤
        inProgressCountByType db "self" + 1 ∧
      inProgressCountByType (processSelfCand o nowMs db c).1 "friend" ≤
        inProgressCountByType db "friend" := by
  unfold processSelfCand
  by_cases h1 : isInProgress db c.cid = true
  · rw [if_pos h1]
    exact ⟨Nat.le_add_right _ 1, Nat.le_refl _⟩
  · rw [if_neg h1]
    by_cases h2 : o.alreadyPinned c.cid = true
    · rw [if_pos h2]
      constructor
      · rw [updatePinSize_count_eq]
        exact Nat.le_add_right _ 1
      · rw [updatePinSize_count_eq]
    · rw [if_neg h2]
      constructor
      · exact markInProgress_count_same db c.cid "self" nowMs
      · exact markInProgress_count_other db c.cid "self" "friend" nowMs
          (by decide)

theorem friendStep_count (o : SchedOracle) (nowMs : Nat) (db : DB) (c : Pin) :
    inProgressCountByType (processFriendCand o nowMs db c).1 "friend" ≤
        inProgressCountByType db "friend" + 1 ∧
      inProgressCountByType (processFriendCand o nowMs db c).1 "self" ≤
        inProgressCountByType db "self" := by
  unfold processFriendCand
  by_cases h1 : isInProgress db c.cid = true
  · rw [if_pos h1]
    exact ⟨Nat.le_add_right _ 1, Nat.le_refl _⟩
  · rw [if_neg h1]
    by_cases h2 : o.alreadyPinned c.cid = true
    · rw [if_pos h2]
      constructor
      · rw [updatePinSize_count_eq]
        exact Nat.le_add_right _ 1
      · rw [updatePinSize_count_eq]
    · rw [if_neg h2]
      constructor
      · exact markInProgress_count_same db c.cid "friend" nowMs
      · exact markInProgress_count_other db c.cid "friend" "self" nowMs
          (by decide)

theorem processCands_self_counts (o : SchedOracle) (nowMs : Nat) :
    ∀ (cs : List Pin) (db : DB),
      (inProgressCountByType
            (processCands (processSelfCand o nowMs) db cs).1 "self" ≤
          inProgressCountByType db "self" + cs.length ∧
        inProgressCountByType
            (processCands (processSelfCand o nowMs) db cs).1 "friend" ≤
          inProgressCountByType db "friend") ∧
      ∀ x ∈ (processCands (processSelfCand o nowMs) db cs).2.2,
        inProgressCountByType x "self" ≤
            inProgressCountByType db "self" + cs.length ∧
          inProgressCountByType x "friend" ≤ inProgressCountByType db "friend"
  | [], db => by
    constructor
    · constructor
      · simp [processCands]
      · simp [processCands]
    · intro x hx
      exact absurd hx (by simp [processCands])
  | c :: cs, db => by
    have hstep := selfStep_count o nowMs db c
    have ih := processCands_self_counts o nowMs cs (processSelfCand o nowMs db c).1
    simp only [processCands]
    simp only [List.length_cons]
    constructor
    · constructor
      · have h1 := ih.1.1
        have h2 := hstep.1
        omega
      · have h1 := ih.1.2
        have h2 := hstep.2
        omega
    · intro x hx
      rcases List.mem_cons.mp hx with hx1 | hx2
      · subst hx1
        have h2 := hstep.1
        have h3 := hstep.2
        exact ⟨by omega, h3⟩
      · have h := ih.2 x hx2
        have h1 := h.1
        have h2 := h.2
        have h3 := hstep.1
        have h4 := hstep.2
        exact ⟨by omega, by omega⟩

theorem processCands_friend_counts (o : SchedOracle) (nowMs : Nat) :
    ∀ (cs : List Pin) (db : DB),
      (inProgressCountByType
            (processCands (processFriendCand o nowMs) db cs).1 "friend" ≤
          inProgressCountByType db "friend" + cs.length ∧
        inProgressCountByType
            (processCands (processFriendCand o nowMs) db cs).1 "self" ≤
          inProgressCountByType db "self") ∧
      ∀ x ∈ (processCands (processFriendCand o nowMs) db cs).2.2,
        inProgressCountByType x "friend" ≤
            inProgressCountByType db "friend" + cs.length ∧
          inProgressCountByType x "self" ≤ inProgressCountByType db "self"
  | [], db => by
    constructor
    · constructor
      · simp [processCands]
      · simp [processCands]
    · intro x hx
      exact absurd hx (by simp [processCands])
  | c :: cs, db => by
    have hstep := friendStep_count o nowMs db c
    have ih := processCands_friend_counts o nowMs cs (processFriendCand o nowMs db c).1
    simp only [processCands]
    simp only [List.length_cons]
    constructor
    · constructor
      · have h1 := ih.1.1
        have h2 := hstep.1
        omega
      · have h1 := ih.1.2
        have h2 := hstep.2
        omega
    · intro x hx
      rcases List.mem_cons.mp hx with hx1 | hx2
      · subst hx1
        have h2 := hstep.1
        have h3 := hstep.2
        exact ⟨by omega, h3⟩
      · have h := ih.2 x hx2
        have h1 := h.1
        have h2 := h.2
        have h3 := hstep.1
        have h4 := hstep.2
        exact ⟨by omega, by omega⟩

theorem completeTask_count_le (o : SchedOracle) (now : Nat) (db : DB)
    (t : Task) (t2 : String) :
    inProgressCountByType (completeTask o now db t) t2 ≤
      inProgressCountByType db t2 := by
  unfold completeTask
  split
  · split
    · exact le_trans (clear_count_le _ _ _)
        (le_of_eq (updatePinSize_count_eq _ _ _ _ _ _))
    · exact le_trans (clear_count_le _ _ _)
        (le_of_eq (updatePinSize_count_eq _ _ _ _ _ _))
  · split
    · exact le_trans (clear_count_le _ _ _)
        (le_of_eq (updatePinSize_count_eq _ _ _ _ _ _))
    · exact le_trans (clear_count_le _ _ _)
        (le_of_eq (updatePinSize_count_eq _ _ _ _ _ _))

theorem completeTasks_counts (o : SchedOracle) (now : Nat) (t2 : String) :
    ∀ (ts : List Task) (db : DB),
      inProgressCountByType (completeTasks o now db ts).1 t2 ≤
          inProgressCountByType db t2 ∧
        ∀ x ∈ (completeTasks o now db ts).2,
          inProgressCountByType x t2 ≤ inProgressCountByType db t2
  | [], db => by
    constructor
    · simp [completeTasks]
    · intro x hx
      exact absurd hx (by simp [completeTasks])
  | t :: ts, db => by
    have h1 := completeTask_count_le o now db t t2
    have ih := completeTasks_counts o now t2 ts (completeTask o now db t)
    simp only [completeTasks]
    constructor
    · exact le_trans ih.1 h1
    · intro x hx
      rcases List.mem_cons.mp hx with hx1 | hx2
      · subst hx1
        exact h1
      · exact le_trans (ih.2 x hx2) h1

theorem getPending_length_le (db : DB) (t : String) (limit : Nat)
    (rand : Nat → Nat) :
    (getPendingCidsByType db t limit rand).length ≤ limit := by
  unfold getPendingCidsByType
  rw [List.length_take]
  exact min_le_left _ _

theorem passTrace_counts (o : SchedOracle) (nowMs now2 : Nat) (db0 db1 : DB)
    (cs1 cs2 : List Pin)
    (h0s : inProgressCountByType db0 "self" ≤ MAX_CONCURRENT_SELF)
    (h0f : inProgressCountByType db0 "friend" ≤ MAX_CONCURRENT_FRIENDS)
    (h1s : inProgressCountByType db1 "self" + cs1.length ≤ MAX_CONCURRENT_SELF)
    (h1f : inProgressCountByType db1 "friend" + cs2.length ≤
      MAX_CONCURRENT_FRIENDS) :
    ∀ x ∈ (db0 :: ((db1 :: (processCands (processSelfCand o nowMs) db1 cs1).2.2) ++
        (processCands (processFriendCand o nowMs)
          (processCands (processSelfCand o nowMs) db1 cs1).1 cs2).2.2)) ++
      (completeTasks o now2
        (processCands (processFriendCand o nowMs)
          (processCands (processSelfCand o nowMs) db1 cs1).1 cs2).1
        ((processCands (processSelfCand o nowMs) db1 cs1).2.1 ++
          (processCands (processFriendCand o nowMs)
            (processCands (processSelfCand o nowMs) db1 cs1).1 cs2).2.1)).2,
      inProgressCountByType x "self" ≤ MAX_CONCURRENT_SELF ∧
        inProgressCountByType x "friend" ≤ MAX_CONCURRENT_FRIENDS := by
  have hS := processCands_self_counts o nowMs cs1 db1
  have hF := processCands_friend_counts o nowMs cs2
    (processCands (processSelfCand o nowMs) db1 cs1).1
  have hCs := completeTasks_counts o now2 "self"
    ((processCands (processSelfCand o nowMs) db1 cs1).2.1 ++
      (processCands (processFriendCand o nowMs)
        (processCands (processSelfCand o nowMs) db1 cs1).1 cs2).2.1)
    (processCands (processFriendCand o nowMs)
      (processCands (processSelfCand o nowMs) db1 cs1).1 cs2).1
  have hCf := completeTasks_counts o now2 "friend"
    ((processCands (processSelfCand o nowMs) db1 cs1).2.1 ++
      (processCands (processFriendCand o nowMs)
        (processCands (processSelfCand o nowMs) db1 cs1).1 cs2).2.1)
    (processCands (processFriendCand o nowMs)
      (processCands (processSelfCand o nowMs) db1 cs1).1 cs2).1
  intro x hx
  rcases List.mem_append.mp hx with hx1 | hxC
  · rcases List.mem_cons.mp hx1 with hx0 | hx2
    · subst hx0
      exact ⟨h0s, h0f⟩
    · rcases List.mem_append.mp hx2 with hx3 | hxF
      · rcases List.mem_cons.mp hx3 with hxd1 | hxA
        · subst hxd1
          exact ⟨by omega, by omega⟩
        · have h := hS.2 x hxA
          have ha := h.1
          have hb := h.2
          exact ⟨by omega, by omega⟩
      · have h := hF.2 x hxF
        have ha := h.1
        have hb := h.2
        have hc := hS.1.1
        have hd := hS.1.2
        exact ⟨by omega, by omega⟩
  · have ha := hCs.2 x hxC
    have hb := hCf.2 x hxC
    have hc := hF.1.1
    have hd := hF.1.2
    have he := hS.1.1
    have hg := hS.1.2
    exact ⟨by omega, by omega⟩

/-- C3 (amended): a pinner-job pass run without overlap — together with the
completions of the fire-and-forget daemon calls it launched — keeps the
number of in-progress entries of class `'self'` at or below
`MAX_CONCURRENT_SELF` and of class `'friend'` at or below
`MAX_CONCURRENT_FRIENDS` at every observed store state, provided both
ceilings hold when the pass starts.  (The original claim, which also covers
a new pass starting while a previous pass's calls are still in flight, is
refuted separately over the event-loop model.) -/
theorem pinnerPass_ceiling (o : SchedOracle) (randS randF : Nat → Nat)
    (nowMs nowMs2 : Nat) (db0 : DB)
    (hs : inProgressCountByType db0 "self" ≤ MAX_CONCURRENT_SELF)
    (hf : inProgressCountByType db0 "friend" ≤ MAX_CONCURRENT_FRIENDS) :
    ∀ db ∈ passWithCompletions o randS randF nowMs nowMs2 db0,
      inProgressCountByType db "self" ≤ MAX_CONCURRENT_SELF ∧
        inProgressCountByType db "friend" ≤ MAX_CONCURRENT_FRIENDS := by
  have hclean_s := cleanup_count_le db0 nowMs "self"
  have hclean_f := cleanup_count_le db0 nowMs "friend"
  unfold passWithCompletions pinnerPass
  dsimp only
  refine passTrace_counts o nowMs (nowMs2 / 1000) db0
    (cleanupStaleInProgress db0 nowMs) _ _ hs hf ?_ ?_
  · by_cases hcond : MAX_CONCURRENT_SELF -
        inProgressCountByType (cleanupStaleInProgress db0 nowMs) "self" > 0 ∧
      countByTypeAndStatus (cleanupStaleInProgress db0 nowMs) "self" "pending" > 0
    · rw [if_pos hcond]
      have hlen := getPending_length_le (cleanupStaleInProgress db0 nowMs) "self"
        (MAX_CONCURRENT_SELF -
          inProgressCountByType (cleanupStaleInProgress db0 nowMs) "self") randS
      omega
    · rw [if_neg hcond]
      simp only [List.length_nil]
      omega
  · by_cases hcond : MAX_CONCURRENT_FRIENDS -
        inProgressCountByType (cleanupStaleInProgress db0 nowMs) "friend" > 0 ∧
      countByTypeAndStatus (cleanupStaleInProgress db0 nowMs) "friend" "pending" > 0
    · rw [if_pos hcond]
      have hlen := getPending_length_le
        (processCands (processSelfCand o nowMs) (cleanupStaleInProgress db0 nowMs)
          (if MAX_CONCURRENT_SELF -
              inProgressCountByType (cleanupStaleInProgress db0 nowMs) "self" > 0 ∧
            countByTypeAndStatus (cleanupStaleInProgress db0 nowMs) "self"
              "pending" > 0 then
            getPendingCidsByType (cleanupStaleInProgress db0 nowMs) "self"
              (MAX_CONCURRENT_SELF -
                inProgressCountByType (cleanupStaleInProgress db0 nowMs) "self")
              randS
          else [])).1
        "friend"
        (MAX_CONCURRENT_FRIENDS -
          inProgressCountByType (cleanupStaleInProgress db0 nowMs) "friend") randF
      omega
    · rw [if_neg hcond]
      simp only [List.length_nil]
      omega

theorem pinnerPass_ceiling_witness :
    (inProgressCountByType dbC1 "self" ≤ MAX_CONCURRENT_SELF ∧
      inProgressCountByType dbC1 "friend" ≤ MAX_CONCURRENT_FRIENDS) ∧
    ∀ db ∈ passWithCompletions oracleC1 idRand idRand 0 1000 dbC1,
      inProgressCountByType db "self" ≤ MAX_CONCURRENT_SELF ∧
        inProgressCountByType db "friend" ≤ MAX_CONCURRENT_FRIENDS :=
  ⟨⟨by decide, by decide⟩,
    pinnerPass_ceiling oracleC1 idRand idRand 0 1000 dbC1 (by decide) (by decide)⟩

end Originless
